import Mathlib

/-! Chain of Responsibility for log messages.

A shallow embedding of `src/Pattern-ChainOfResponsibility.cpp`.

* Handler objects live in a store indexed by addresses; the C++ pointer
  `nextHandler` is an `Option Addr` (`none` is `nullptr`).
* The observable world is the text written to the standard output and error
  streams and the file system seen through `std::ofstream` in append mode.
* A C++ exception is an explicit result: `process` answers `ret b` or
  `throw what`, and `handle` answers `returned` or `thrown what`.
* `handle` recurses along `nextHandler` pointers, which may form a cycle, so
  the embedding takes the number of nested activations it may use as fuel.
-/

namespace ChainOfResponsibility

/-! ## Data model -/

/-- The enumeration `Type` of the source (lines 6-11); `Type` is reserved in Lean. -/
inductive LogType where
  | WARNING
  | ERROR
  | FATAL_ERROR
  | UNKNOWN
  deriving DecidableEq, Repr

/-- The class `LogMessage` (lines 14-28): a classification and a text, both read-only. -/
structure LogMessage where
  type : LogType
  message : String
  deriving DecidableEq, Repr

/-- Addresses of handler objects. -/
abbrev Addr := Nat

/-- The observable world.  `files p = none` says that opening `p` for appending
fails; `files p = some c` says that the open succeeds and the file holds `c`
(a file that the open would create holds the empty text). -/
structure World where
  stdout : String
  stderr : String
  files : String → Option String

/-- The statement `std::cout << text << std::endl`. -/
def World.writeStdout (w : World) (text : String) : World :=
  { w with stdout := w.stdout ++ text ++ "\n" }

/-- The block `std::ofstream file(path, std::ios::app); if (file.is_open()) { file << text << std::endl; }`
of `ErrorHandler::process` (lines 70-74): the line is appended when the open
succeeds and the write is skipped when it fails. -/
def World.appendLine (w : World) (path : String) (text : String) : World :=
  match w.files path with
  | some content =>
      { w with files := fun q => if q = path then some (content ++ text ++ "\n") else w.files q }
  | none => w

/-- How a call of `process` ends: it returns a `bool` or throws `std::runtime_error(what)`. -/
inductive ProcResult where
  | ret (consumed : Bool)
  | throw (what : String)
  deriving DecidableEq, Repr

/-- How a call of `handle` (a `void` function) ends: it returns or an exception leaves it. -/
inductive Outcome where
  | returned
  | thrown (what : String)
  deriving DecidableEq, Repr

/-- The four concrete subclasses of `LogHandler`, with their own data members. -/
inductive Variant where
  | WarningHandler
  | ErrorHandler (logFilePath : String)
  | FatalErrorHandler
  | UnknownHandler
  deriving DecidableEq, Repr

/-- A handler object: its dynamic type and the base-class member `nextHandler`. -/
structure LogHandler where
  impl : Variant
  nextHandler : Option Addr
  deriving DecidableEq, Repr

/-- The store of handler objects. -/
abbrev Heap := Addr → LogHandler

/-! ## The four `process` overrides -/

/-- The override `WarningHandler::process` (lines 53-59). -/
def WarningHandler.process (logMessage : LogMessage) (w : World) : World × ProcResult :=
  if logMessage.type = LogType.WARNING then
    (w.writeStdout logMessage.message, ProcResult.ret true)
  else
    (w, ProcResult.ret false)

/-- The override `ErrorHandler::process` (lines 68-79). -/
def ErrorHandler.process (logFilePath : String) (logMessage : LogMessage) (w : World) :
    World × ProcResult :=
  if logMessage.type = LogType.ERROR then
    (w.appendLine logFilePath logMessage.message, ProcResult.ret true)
  else
    (w, ProcResult.ret false)

/-- The override `FatalErrorHandler::process` (lines 88-93). -/
def FatalErrorHandler.process (logMessage : LogMessage) (w : World) : World × ProcResult :=
  if logMessage.type = LogType.FATAL_ERROR then
    (w, ProcResult.throw logMessage.message)
  else
    (w, ProcResult.ret false)

/-- The override `UnknownHandler::process` (lines 99-104). -/
def UnknownHandler.process (logMessage : LogMessage) (w : World) : World × ProcResult :=
  if logMessage.type = LogType.UNKNOWN then
    (w, ProcResult.throw ("Unhandled message (" ++ logMessage.message ++ ")"))
  else
    (w, ProcResult.ret false)

/-- The virtual call `process(logMessage)`: dispatch on the dynamic type. -/
def Variant.process : Variant → LogMessage → World → World × ProcResult
  | Variant.WarningHandler => WarningHandler.process
  | Variant.ErrorHandler logFilePath => ErrorHandler.process logFilePath
  | Variant.FatalErrorHandler => FatalErrorHandler.process
  | Variant.UnknownHandler => UnknownHandler.process

/-- The classification each override compares `logMessage.type()` with
(lines 54, 69, 89 and 100). -/
def Variant.responsibility : Variant → LogType
  | Variant.WarningHandler => LogType.WARNING
  | Variant.ErrorHandler _ => LogType.ERROR
  | Variant.FatalErrorHandler => LogType.FATAL_ERROR
  | Variant.UnknownHandler => LogType.UNKNOWN

/-! ## The base class `LogHandler` -/

/-- The member `LogHandler::setNext` (lines 35-37); `none` is a null argument. -/
def setNext (heap : Heap) (self : Addr) (nextHandler : Option Addr) : Heap :=
  fun a => if a = self then { heap self with nextHandler := nextHandler } else heap a

/-- What one activation of `handle` does before it either finishes or calls
`handle` on the next handler. -/
inductive Step where
  | forward (next : Addr) (w : World)
  | finish (w : World) (outcome : Outcome)

/-- One activation of `LogHandler::handle` (lines 39-43) on the object at `self`:
`process` runs first; an exception leaves `handle`; otherwise the nested call is
made exactly when `!process(logMessage) && nextHandler` holds. -/
def handleStep (heap : Heap) (self : Addr) (logMessage : LogMessage) (w : World) : Step :=
  match (heap self).impl.process logMessage w with
  | (w1, ProcResult.throw what) => Step.finish w1 (Outcome.thrown what)
  | (w1, ProcResult.ret consumed) =>
    if !consumed then
      match (heap self).nextHandler with
      | some next => Step.forward next w1
      | none => Step.finish w1 Outcome.returned
    else
      Step.finish w1 Outcome.returned

/-- The member `LogHandler::handle` (lines 39-43).  The nested call is the last
statement of the body, so its outcome is the outcome of the caller.  `fuel`
bounds the number of nested activations; `none` says that the bound was reached. -/
def handle : Nat → Heap → Addr → LogMessage → World → Option (World × Outcome)
  | 0, _, _, _, _ => none
  | fuel + 1, heap, self, logMessage, w =>
    match handleStep heap self logMessage w with
    | Step.forward next w1 => handle fuel heap next logMessage w1
    | Step.finish w1 outcome => some (w1, outcome)

/-- The objects whose `process` is run, in order, by the first `fuel`
activations of `handle` started at `self`. -/
def handleCalls : Nat → Heap → Addr → LogMessage → World → List Addr
  | 0, _, _, _, _ => []
  | fuel + 1, heap, self, logMessage, w =>
    match handleStep heap self logMessage w with
    | Step.forward next w1 => self :: handleCalls fuel heap next logMessage w1
    | Step.finish _ _ => [self]

/-- The result of `handle` at an object whose own `process` ends the dispatch. -/
def ProcResult.toOutcome : ProcResult → Outcome
  | ProcResult.ret _ => Outcome.returned
  | ProcResult.throw what => Outcome.thrown what

/-! ## Chains -/

/-- The list `chain` is the sequence of objects met from `self` by following
`nextHandler` up to the object whose `nextHandler` is null.  Such a list exists
exactly when no cycle is reachable from `self`. -/
def IsChain (heap : Heap) : Addr → List Addr → Prop
  | _, [] => False
  | self, [a] => self = a ∧ (heap self).nextHandler = none
  | self, a :: b :: rest =>
    self = a ∧ (heap self).nextHandler = some b ∧ IsChain heap b (b :: rest)

/-! ## Decidability of the chain predicate -/

instance IsChain.decide (heap : Heap) : (self : Addr) → (chain : List Addr) →
    Decidable (IsChain heap self chain)
  | _, [] => isFalse (fun h => h)
  | self, [a] =>
    if h : self = a ∧ (heap self).nextHandler = none then isTrue h else isFalse h
  | self, a :: b :: rest =>
    match IsChain.decide heap b (b :: rest) with
    | isTrue hr =>
      if h : self = a ∧ (heap self).nextHandler = some b then isTrue ⟨h.1, h.2, hr⟩
      else isFalse (fun hc => h ⟨hc.1, hc.2.1⟩)
    | isFalse hr => isFalse (fun hc => hr hc.2.2)

/-! ## The chain assembled by `main` -/

/-- Address of the local `fatalHandler` of `main`. -/
def fatalHandler : Addr := 0
/-- Address of the local `errorHandler` of `main`. -/
def errorHandler : Addr := 1
/-- Address of the local `warningHandler` of `main`. -/
def warningHandler : Addr := 2
/-- Address of the local `unknownHandler` of `main`. -/
def unknownHandler : Addr := 3

/-- The four handler objects as constructed (lines 110-113): every
`nextHandler` is null by its default member initialiser (line 47). -/
def constructed : Heap := fun a =>
  match a with
  | 0 => { impl := Variant.FatalErrorHandler, nextHandler := none }
  | 1 => { impl := Variant.ErrorHandler "logs.txt", nextHandler := none }
  | 2 => { impl := Variant.WarningHandler, nextHandler := none }
  | _ => { impl := Variant.UnknownHandler, nextHandler := none }

/-- The store after the three `setNext` calls of `main` (lines 115-117). -/
def mainHeap : Heap :=
  setNext (setNext (setNext constructed fatalHandler (some errorHandler))
    errorHandler (some warningHandler)) warningHandler (some unknownHandler)

/-- A world with empty output streams in which `logs.txt` can be opened and is empty
and no other file can be opened. -/
def World.sample : World :=
  { stdout := "", stderr := "", files := fun p => if p = "logs.txt" then some "" else none }

/-- A world with empty output streams in which no file can be opened. -/
def World.readOnly : World :=
  { stdout := "", stderr := "", files := fun _ => none }

/-! ## Following `nextHandler` pointers -/

/-- The object reached from `self` after following `nextHandler` exactly `k` times,
when no null pointer is met on the way. -/
def nextIter (heap : Heap) : Nat → Addr → Option Addr
  | 0, self => some self
  | k + 1, self =>
    match (heap self).nextHandler with
    | some next => nextIter heap k next
    | none => none

/-! ## The driver `main` -/

/-- The local `warningMessage` of `main` (line 119). -/
def warningMessage : LogMessage := ⟨LogType.WARNING, "Warning message"⟩
/-- The local `errorMessage` of `main` (line 120). -/
def errorMessage : LogMessage := ⟨LogType.ERROR, "Error message"⟩
/-- The local `fatalErrorMessage` of `main` (line 121). -/
def fatalErrorMessage : LogMessage := ⟨LogType.FATAL_ERROR, "Fatal error message"⟩
/-- The local `unknownMessage` of `main` (line 122). -/
def unknownMessage : LogMessage := ⟨LogType.UNKNOWN, "UNKNOWN"⟩

/-- A statement `entry.handle(logMessage)` of a try block. -/
abbrev Call := Addr × LogMessage

/-- How a try block ends, together with the dispatch calls it made, in order. -/
structure BlockRun where
  world : World
  outcome : Outcome
  performed : List Call

/-- The body of a try block: its `handle` calls run in order, and the first
exception leaves the block, skipping the calls after it. -/
def tryBlock (fuel : Nat) (heap : Heap) : List Call → World → Option BlockRun
  | [], w => some { world := w, outcome := Outcome.returned, performed := [] }
  | (entry, logMessage) :: rest, w =>
    match handle fuel heap entry logMessage w with
    | none => none
    | some (w1, Outcome.thrown what) =>
      some { world := w1, outcome := Outcome.thrown what, performed := [(entry, logMessage)] }
    | some (w1, Outcome.returned) =>
      match tryBlock fuel heap rest w1 with
      | none => none
      | some r =>
        some { world := r.world, outcome := r.outcome,
               performed := (entry, logMessage) :: r.performed }

/-- The clause `catch (const std::exception& ex)` of `main` (lines 129-131 and
135-137): the statement `std::cerr << "Exception: " << ex.what() << std::endl` runs
when an exception left the try block. -/
def catchClause (w : World) : Outcome → World
  | Outcome.returned => w
  | Outcome.thrown what => { w with stderr := w.stderr ++ "Exception: " ++ what ++ "\n" }

/-- How `main` ends: the world, the exit code and the dispatch calls it made. -/
structure MainRun where
  world : World
  exitCode : Int
  performed : List Call

/-- The statements of `main` from line 124 on, with the chain and the entry
handlers as in the source and the four messages as parameters: a try block with
three dispatch calls, its catch clause, a try block with one dispatch call, its
catch clause, and `return 0`.  `fuel` bounds the activations of each `handle`. -/
def driver (fuel : Nat) (m1 m2 m3 m4 : LogMessage) (w : World) : Option MainRun :=
  match tryBlock fuel mainHeap
      [(warningHandler, m1), (errorHandler, m2), (fatalHandler, m3)] w with
  | none => none
  | some r1 =>
    match tryBlock fuel mainHeap [(unknownHandler, m4)]
        (catchClause r1.world r1.outcome) with
    | none => none
    | some r2 =>
      some { world := catchClause r2.world r2.outcome, exitCode := 0,
             performed := r1.performed ++ r2.performed }

/-- The function `main` (lines 108-139). -/
def main (fuel : Nat) (w : World) : Option MainRun :=
  driver fuel warningMessage errorMessage fatalErrorMessage unknownMessage w

/-! ## Reference definitions taken from the specification -/

/-- Reference definition, from the table of handler variants of the
specification: the action of a variant on a message text. -/
def referenceAction : Variant → String → World → World × Outcome
  | Variant.WarningHandler, text, w =>
    ({ w with stdout := w.stdout ++ text ++ "\n" }, Outcome.returned)
  | Variant.ErrorHandler path, text, w =>
    match w.files path with
    | some content =>
      ({ w with files := fun q => if q = path then some (content ++ text ++ "\n")
                                  else w.files q }, Outcome.returned)
    | none => (w, Outcome.returned)
  | Variant.FatalErrorHandler, text, w => (w, Outcome.thrown text)
  | Variant.UnknownHandler, text, w =>
    (w, Outcome.thrown ("Unhandled message (" ++ text ++ ")"))

/-- Reference definition of dispatch: find the first object in chain order whose
variant matches the classification of the message and perform only that object's
action; when there is none, do nothing. -/
def referenceDispatch (heap : Heap) (chain : List Addr) (logMessage : LogMessage)
    (w : World) : World × Outcome :=
  match chain.find? (fun a => decide ((heap a).impl.responsibility = logMessage.type)) with
  | some k => referenceAction (heap k).impl logMessage.message w
  | none => (w, Outcome.returned)

/-! ## Basic facts about `process` -/

theorem process_of_ne (v : Variant) (m : LogMessage) (w : World)
    (hne : v.responsibility ≠ m.type) : v.process m w = (w, ProcResult.ret false) := by
  cases v <;>
    simp only [Variant.responsibility] at hne <;>
    simp [Variant.process, WarningHandler.process, ErrorHandler.process,
      FatalErrorHandler.process, UnknownHandler.process, Ne.symm hne]

theorem process_of_eq (v : Variant) (m : LogMessage) (w : World)
    (heq : v.responsibility = m.type) : (v.process m w).2 ≠ ProcResult.ret false := by
  cases v <;>
    simp only [Variant.responsibility] at heq <;>
    simp [Variant.process, WarningHandler.process, ErrorHandler.process,
      FatalErrorHandler.process, UnknownHandler.process, ← heq]

/-! ## One activation of `handle` -/

theorem handleStep_throw (heap : Heap) (self : Addr) (m : LogMessage) (w w1 : World)
    (what : String) (hp : (heap self).impl.process m w = (w1, ProcResult.throw what)) :
    handleStep heap self m w = Step.finish w1 (Outcome.thrown what) := by
  simp [handleStep, hp]

theorem handleStep_forward (heap : Heap) (self next : Addr) (m : LogMessage) (w w1 : World)
    (hp : (heap self).impl.process m w = (w1, ProcResult.ret false))
    (hn : (heap self).nextHandler = some next) :
    handleStep heap self m w = Step.forward next w1 := by
  simp [handleStep, hp, hn]

theorem handleStep_consumed (heap : Heap) (self : Addr) (m : LogMessage) (w w1 : World)
    (hp : (heap self).impl.process m w = (w1, ProcResult.ret true)) :
    handleStep heap self m w = Step.finish w1 Outcome.returned := by
  simp only [handleStep, hp]
  cases (heap self).nextHandler <;> simp

theorem handleStep_last (heap : Heap) (self : Addr) (m : LogMessage) (w w1 : World)
    (consumed : Bool) (hp : (heap self).impl.process m w = (w1, ProcResult.ret consumed))
    (hn : (heap self).nextHandler = none) :
    handleStep heap self m w = Step.finish w1 Outcome.returned := by
  simp [handleStep, hp, hn]

/-- At an object whose variant matches the classification the activation ends
with the effect and result of that object's `process`. -/
theorem handleStep_match (heap : Heap) (self : Addr) (m : LogMessage) (w : World)
    (heq : (heap self).impl.responsibility = m.type) :
    handleStep heap self m w =
      Step.finish ((heap self).impl.process m w).1
        ((heap self).impl.process m w).2.toOutcome := by
  have hne := process_of_eq (heap self).impl m w heq
  rcases hp : (heap self).impl.process m w with ⟨w1, r⟩
  rw [hp] at hne
  cases r with
  | throw what => simpa [ProcResult.toOutcome] using handleStep_throw heap self m w w1 what hp
  | ret b =>
    cases b with
    | false => exact absurd rfl hne
    | true => simpa [ProcResult.toOutcome] using handleStep_consumed heap self m w w1 hp

theorem handle_match (fuel : Nat) (heap : Heap) (self : Addr) (m : LogMessage) (w : World)
    (heq : (heap self).impl.responsibility = m.type) :
    handle (fuel + 1) heap self m w =
      some (((heap self).impl.process m w).1, ((heap self).impl.process m w).2.toOutcome) := by
  simp [handle, handleStep_match heap self m w heq]

theorem handleCalls_match (fuel : Nat) (heap : Heap) (self : Addr) (m : LogMessage) (w : World)
    (heq : (heap self).impl.responsibility = m.type) :
    handleCalls (fuel + 1) heap self m w = [self] := by
  simp [handleCalls, handleStep_match heap self m w heq]

/-! ## Fuel -/

theorem handle_fuel_mono (fuel extra : Nat) (heap : Heap) (self : Addr) (m : LogMessage)
    (w : World) (r : World × Outcome) (h : handle fuel heap self m w = some r) :
    handle (fuel + extra) heap self m w = some r := by
  induction fuel generalizing self w with
  | zero => simp [handle] at h
  | succ n ih =>
    rw [Nat.succ_add]
    simp only [handle] at h ⊢
    cases hs : handleStep heap self m w with
    | forward next w1 =>
      rw [hs] at h
      simpa using ih next w1 h
    | finish w1 o =>
      rw [hs] at h
      simpa using h

theorem handle_of_le (fuel fuel2 : Nat) (heap : Heap) (self : Addr) (m : LogMessage)
    (w : World) (r : World × Outcome) (h : handle fuel heap self m w = some r)
    (hle : fuel ≤ fuel2) : handle fuel2 heap self m w = some r := by
  obtain ⟨extra, rfl⟩ := Nat.exists_eq_add_of_le hle
  exact handle_fuel_mono fuel extra heap self m w r h

theorem handleCalls_fuel_mono (fuel extra : Nat) (heap : Heap) (self : Addr) (m : LogMessage)
    (w : World) (r : World × Outcome) (h : handle fuel heap self m w = some r) :
    handleCalls (fuel + extra) heap self m w = handleCalls fuel heap self m w := by
  induction fuel generalizing self w with
  | zero => simp [handle] at h
  | succ n ih =>
    rw [Nat.succ_add]
    simp only [handle, handleCalls] at h ⊢
    cases hs : handleStep heap self m w with
    | forward next w1 =>
      rw [hs] at h
      simpa using ih next w1 h
    | finish w1 o => simp

theorem handleCalls_of_le (fuel fuel2 : Nat) (heap : Heap) (self : Addr) (m : LogMessage)
    (w : World) (r : World × Outcome) (h : handle fuel heap self m w = some r)
    (hle : fuel ≤ fuel2) :
    handleCalls fuel2 heap self m w = handleCalls fuel heap self m w := by
  obtain ⟨extra, rfl⟩ := Nat.exists_eq_add_of_le hle
  exact handleCalls_fuel_mono fuel extra heap self m w r h

/-! ## Structure of chains -/

theorem IsChain.head_eq {heap : Heap} {self a : Addr} {rest : List Addr}
    (h : IsChain heap self (a :: rest)) : self = a := by
  cases rest with
  | nil => exact h.1
  | cons b rest => exact h.1

theorem IsChain.ne_nil {heap : Heap} {self : Addr} {chain : List Addr}
    (h : IsChain heap self chain) : chain ≠ [] := by
  intro hc
  subst hc
  exact h

theorem IsChain.tail {heap : Heap} {self a b : Addr} {rest : List Addr}
    (h : IsChain heap self (a :: b :: rest)) : IsChain heap b (b :: rest) := h.2.2

theorem IsChain.next_eq {heap : Heap} {self a b : Addr} {rest : List Addr}
    (h : IsChain heap self (a :: b :: rest)) : (heap a).nextHandler = some b := by
  have := h.1
  subst this
  exact h.2.1

/-- The part of a chain that starts at one of its objects is the chain of that object. -/
theorem IsChain.suffix {heap : Heap} {self k : Addr} (pre post : List Addr)
    (h : IsChain heap self (pre ++ k :: post)) : IsChain heap k (k :: post) := by
  induction pre generalizing self with
  | nil =>
    have := IsChain.head_eq h
    subst this
    exact h
  | cons a pre ih =>
    cases pre with
    | nil => exact IsChain.tail h
    | cons b pre => exact ih (IsChain.tail h)

/-- The chain of an object is unique. -/
theorem IsChain.unique {heap : Heap} {self : Addr} {c1 c2 : List Addr}
    (h1 : IsChain heap self c1) (h2 : IsChain heap self c2) : c1 = c2 := by
  induction c1 generalizing self c2 with
  | nil => exact absurd h1 (by simp [IsChain])
  | cons a r1 ih =>
    cases c2 with
    | nil => exact absurd h2 (by simp [IsChain])
    | cons b r2 =>
      have ha := IsChain.head_eq h1
      have hb := IsChain.head_eq h2
      subst ha
      subst hb
      cases r1 with
      | nil =>
        cases r2 with
        | nil => rfl
        | cons c r2 =>
          have e1 : (heap self).nextHandler = none := h1.2
          have e2 := IsChain.next_eq h2
          rw [e1] at e2
          cases e2
      | cons c r1 =>
        cases r2 with
        | nil =>
          have e1 : (heap self).nextHandler = none := h2.2
          have e2 := IsChain.next_eq h1
          rw [e1] at e2
          cases e2
        | cons d r2 =>
          have e1 := IsChain.next_eq h1
          have e2 := IsChain.next_eq h2
          rw [e1] at e2
          cases e2
          rw [ih (IsChain.tail h1) (IsChain.tail h2)]

/-- No object occurs twice in a chain: a chain is free of cycles. -/
theorem IsChain.nodup {heap : Heap} {self : Addr} {chain : List Addr}
    (h : IsChain heap self chain) : chain.Nodup := by
  induction chain generalizing self with
  | nil => exact List.nodup_nil
  | cons a rest ih =>
    have ha := IsChain.head_eq h
    subst ha
    rw [List.nodup_cons]
    constructor
    · intro hmem
      obtain ⟨pre, post, hsplit⟩ := List.append_of_mem hmem
      have hsuf : IsChain heap self (self :: post) := by
        have h2 : IsChain heap self ((self :: pre) ++ self :: post) := by
          rw [hsplit] at h
          simpa using h
        exact IsChain.suffix (self :: pre) post h2
      have hu := IsChain.unique h hsuf
      have hl := congrArg List.length hu
      rw [hsplit] at hl
      simp at hl
      omega
    · cases rest with
      | nil => exact List.nodup_nil
      | cons b rest => exact ih (IsChain.tail h)

/-! ## Dispatch along a chain -/

/-- Objects that do not match the classification pass the message on unchanged:
dispatch at the head of `pre ++ k :: post` reaches `k` with the same world after
running `process` once on each object of `pre`, in order. -/
theorem handle_skip {heap : Heap} {self k : Addr} (pre post : List Addr) (m : LogMessage)
    (w : World) (fuel : Nat) (hc : IsChain heap self (pre ++ k :: post))
    (hpre : ∀ j ∈ pre, (heap j).impl.responsibility ≠ m.type) :
    handle (pre.length + fuel) heap self m w = handle fuel heap k m w ∧
      handleCalls (pre.length + fuel) heap self m w = pre ++ handleCalls fuel heap k m w := by
  induction pre generalizing self with
  | nil =>
    have := IsChain.head_eq hc
    subst this
    simp
  | cons a pre ih =>
    have ha := IsChain.head_eq hc
    subst ha
    have hne := hpre self (List.mem_cons_self _ _)
    have hp := process_of_ne (heap self).impl m w hne
    have hrest : ∀ j ∈ pre, (heap j).impl.responsibility ≠ m.type :=
      fun j hj => hpre j (List.mem_cons_of_mem _ hj)
    have hlen : (self :: pre).length + fuel = (pre.length + fuel) + 1 := by
      simp only [List.length_cons]; omega
    rw [hlen]
    cases pre with
    | nil =>
      have hn : (heap self).nextHandler = some k := IsChain.next_eq hc
      have hs := handleStep_forward heap self k m w w hp hn
      have hk := ih (IsChain.tail hc) hrest
      simp only [handle, handleCalls, hs]
      exact ⟨hk.1, by rw [hk.2]; rfl⟩
    | cons b pre =>
      have hn : (heap self).nextHandler = some b := IsChain.next_eq hc
      have hs := handleStep_forward heap self b m w w hp hn
      have hk := ih (IsChain.tail hc) hrest
      simp only [handle, handleCalls, hs]
      exact ⟨hk.1, by rw [hk.2]; rfl⟩

/-- When no object of the chain matches the classification, every object runs
`process` once and `handle` returns with the world unchanged. -/
theorem handle_unmatched {heap : Heap} {self : Addr} (chain : List Addr) (m : LogMessage)
    (w : World) (fuel : Nat) (hc : IsChain heap self chain)
    (hno : ∀ j ∈ chain, (heap j).impl.responsibility ≠ m.type) :
    handle (chain.length + fuel) heap self m w = some (w, Outcome.returned) ∧
      handleCalls (chain.length + fuel) heap self m w = chain := by
  induction chain generalizing self with
  | nil => exact absurd hc (by simp [IsChain])
  | cons a rest ih =>
    have ha := IsChain.head_eq hc
    subst ha
    have hne := hno self (List.mem_cons_self _ _)
    have hp := process_of_ne (heap self).impl m w hne
    have hlen : (self :: rest).length + fuel = (rest.length + fuel) + 1 := by
      simp only [List.length_cons]; omega
    rw [hlen]
    cases rest with
    | nil =>
      have hn : (heap self).nextHandler = none := hc.2
      have hs := handleStep_last heap self m w w false hp hn
      simp [handle, handleCalls, hs]
    | cons b rest =>
      have hn : (heap self).nextHandler = some b := IsChain.next_eq hc
      have hs := handleStep_forward heap self b m w w hp hn
      have hk := ih (IsChain.tail hc)
        (fun j hj => hno j (List.mem_cons_of_mem _ hj))
      simp only [handle, handleCalls, hs]
      exact ⟨hk.1, by rw [hk.2]⟩

/-- Dispatch at the head of a chain ends at the first object whose variant
matches the classification, with the effect and result of that object's `process`
alone; the objects before it run `process` once each and the objects after it are
not reached. -/
theorem handle_first_match {heap : Heap} {self k : Addr} (pre post : List Addr)
    (m : LogMessage) (w : World) (fuel : Nat) (hc : IsChain heap self (pre ++ k :: post))
    (hpre : ∀ j ∈ pre, (heap j).impl.responsibility ≠ m.type)
    (hk : (heap k).impl.responsibility = m.type) :
    handle (pre.length + (fuel + 1)) heap self m w =
        some (((heap k).impl.process m w).1, ((heap k).impl.process m w).2.toOutcome) ∧
      handleCalls (pre.length + (fuel + 1)) heap self m w = pre ++ [k] := by
  have hs := handle_skip pre post m w (fuel + 1) hc hpre
  rw [hs.1, hs.2, handle_match fuel heap k m w hk, handleCalls_match fuel heap k m w hk]
  exact ⟨rfl, rfl⟩

/-- Splitting a list at the first element with a given property. -/
theorem exists_first_match (P : Addr → Prop) [DecidablePred P] (l : List Addr) (k : Addr)
    (hk : k ∈ l) (hP : P k) :
    ∃ pre k1 post, l = pre ++ k1 :: post ∧ P k1 ∧ ∀ j ∈ pre, ¬ P j := by
  induction l with
  | nil => simp at hk
  | cons a rest ih =>
    by_cases ha : P a
    · exact ⟨[], a, rest, rfl, ha, by simp⟩
    · have hk2 : k ∈ rest := by
        rcases List.mem_cons.mp hk with h | h
        · exact absurd (h ▸ hP) ha
        · exact h
      obtain ⟨pre, k1, post, hsplit, hk1, hpre⟩ := ih hk2
      refine ⟨a :: pre, k1, post, by simp [hsplit], hk1, ?_⟩
      intro j hj
      rcases List.mem_cons.mp hj with h | h
      · exact h ▸ ha
      · exact hpre j h

/-- Dispatch with any sufficient fuel ends at the first matching object of the chain. -/
theorem handle_first_match_le {heap : Heap} {self k : Addr} (pre post : List Addr)
    (m : LogMessage) (w : World) (fuel : Nat) (hc : IsChain heap self (pre ++ k :: post))
    (hpre : ∀ j ∈ pre, (heap j).impl.responsibility ≠ m.type)
    (hk : (heap k).impl.responsibility = m.type) (hfuel : pre.length + 1 ≤ fuel) :
    handle fuel heap self m w =
        some (((heap k).impl.process m w).1, ((heap k).impl.process m w).2.toOutcome) ∧
      handleCalls fuel heap self m w = pre ++ [k] := by
  obtain ⟨extra, rfl⟩ := Nat.exists_eq_add_of_le hfuel
  have h := handle_first_match pre post m w extra hc hpre hk
  have e : pre.length + 1 + extra = pre.length + (extra + 1) := by omega
  rw [e]
  exact h

/-- Dispatch with any sufficient fuel through a chain without a matching object. -/
theorem handle_unmatched_le {heap : Heap} {self : Addr} (chain : List Addr) (m : LogMessage)
    (w : World) (fuel : Nat) (hc : IsChain heap self chain)
    (hno : ∀ j ∈ chain, (heap j).impl.responsibility ≠ m.type) (hfuel : chain.length ≤ fuel) :
    handle fuel heap self m w = some (w, Outcome.returned) ∧
      handleCalls fuel heap self m w = chain := by
  obtain ⟨extra, rfl⟩ := Nat.exists_eq_add_of_le hfuel
  exact handle_unmatched chain m w extra hc hno

theorem process_warning (m : LogMessage) (w : World) (hm : m.type = LogType.WARNING) :
    Variant.WarningHandler.process m w = (w.writeStdout m.message, ProcResult.ret true) := by
  simp [Variant.process, WarningHandler.process, hm]

theorem process_error (p : String) (m : LogMessage) (w : World) (hm : m.type = LogType.ERROR) :
    (Variant.ErrorHandler p).process m w = (w.appendLine p m.message, ProcResult.ret true) := by
  simp [Variant.process, ErrorHandler.process, hm]

theorem process_fatal (m : LogMessage) (w : World) (hm : m.type = LogType.FATAL_ERROR) :
    Variant.FatalErrorHandler.process m w = (w, ProcResult.throw m.message) := by
  simp [Variant.process, FatalErrorHandler.process, hm]

theorem process_unknown (m : LogMessage) (w : World) (hm : m.type = LogType.UNKNOWN) :
    Variant.UnknownHandler.process m w =
      (w, ProcResult.throw ("Unhandled message (" ++ m.message ++ ")")) := by
  simp [Variant.process, UnknownHandler.process, hm]

theorem appendLine_openable (w : World) (p t c : String) (h : w.files p = some c) :
    w.appendLine p t =
      { w with files := fun q => if q = p then some (c ++ t ++ "\n") else w.files q } := by
  simp [World.appendLine, h]

theorem appendLine_unopenable (w : World) (p t : String) (h : w.files p = none) :
    w.appendLine p t = w := by
  simp [World.appendLine, h]

theorem mainHeap_isChain :
    IsChain mainHeap fatalHandler [fatalHandler, errorHandler, warningHandler, unknownHandler] := by
  decide

/-! ## Properties of the specification -/

/-- C1: for every handler object and message, `handle` first runs the object's own
`process`; when `process` returns false and there is a next handler, `handle` calls
`handle` on that next handler with the same message; when `process` returns true or
there is no next handler, `handle` returns at this object and no further handler runs
(and when `process` throws, the exception leaves `handle` at this object). -/
theorem C1_handle_contract (heap : Heap) (self : Addr) (m : LogMessage) (w : World)
    (fuel : Nat) :
    (handleCalls (fuel + 1) heap self m w).head? = some self ∧
    (∀ w1 next, (heap self).impl.process m w = (w1, ProcResult.ret false) →
      (heap self).nextHandler = some next →
        handleStep heap self m w = Step.forward next w1 ∧
        handle (fuel + 1) heap self m w = handle fuel heap next m w1 ∧
        handleCalls (fuel + 1) heap self m w = self :: handleCalls fuel heap next m w1) ∧
    (∀ w1 consumed, (heap self).impl.process m w = (w1, ProcResult.ret consumed) →
      (consumed = true ∨ (heap self).nextHandler = none) →
        handleStep heap self m w = Step.finish w1 Outcome.returned ∧
        handle (fuel + 1) heap self m w = some (w1, Outcome.returned) ∧
        handleCalls (fuel + 1) heap self m w = [self]) ∧
    (∀ w1 what, (heap self).impl.process m w = (w1, ProcResult.throw what) →
        handle (fuel + 1) heap self m w = some (w1, Outcome.thrown what) ∧
        handleCalls (fuel + 1) heap self m w = [self]) := by
  refine ⟨?_, ?_, ?_, ?_⟩
  · simp only [handleCalls]
    cases handleStep heap self m w <;> rfl
  · intro w1 next hp hn
    have hs := handleStep_forward heap self next m w w1 hp hn
    exact ⟨hs, by simp [handle, hs], by simp [handleCalls, hs]⟩
  · intro w1 consumed hp hcase
    have hs : handleStep heap self m w = Step.finish w1 Outcome.returned := by
      rcases hcase with h | h
      · subst h
        exact handleStep_consumed heap self m w w1 hp
      · exact handleStep_last heap self m w w1 consumed hp h
    exact ⟨hs, by simp [handle, hs], by simp [handleCalls, hs]⟩
  · intro w1 what hp
    have hs := handleStep_throw heap self m w w1 what hp
    exact ⟨by simp [handle, hs], by simp [handleCalls, hs]⟩

/-- Witness for C1 on the chain of `main`: at `fatalHandler` a WARNING message is
forwarded to `errorHandler`, and at `warningHandler` it is consumed. -/
theorem C1_handle_contract_witness :
    handle 4 mainHeap fatalHandler ⟨LogType.WARNING, "Warning message"⟩ World.sample =
        handle 3 mainHeap errorHandler ⟨LogType.WARNING, "Warning message"⟩ World.sample ∧
      handleCalls 1 mainHeap warningHandler ⟨LogType.WARNING, "Warning message"⟩ World.sample =
        [warningHandler] :=
  ⟨((C1_handle_contract mainHeap fatalHandler ⟨LogType.WARNING, "Warning message"⟩
      World.sample 3).2.1 World.sample errorHandler rfl rfl).2.1,
   ((C1_handle_contract mainHeap warningHandler ⟨LogType.WARNING, "Warning message"⟩
      World.sample 0).2.2.1 (World.sample.writeStdout "Warning message") true rfl
      (Or.inl rfl)).2.2⟩

/-- C2: in a chain with exactly one object `k` whose variant matches the message's
classification, dispatch from the head yields the effect and result of the `process`
of `k` alone, applied once to the initial world: the standard-output line for
Warning, the file append for Error (`World.appendLine`, whose write is skipped when
the file cannot be opened), the exception for FatalError and Unknown.  The objects
before `k` run `process` without effect and the objects after `k` are not reached. -/
theorem C2_unique_match_action (heap : Heap) (self k : Addr) (chain : List Addr)
    (m : LogMessage) (w : World) (fuel : Nat) (hc : IsChain heap self chain)
    (hk : k ∈ chain) (hm : (heap k).impl.responsibility = m.type)
    (huniq : ∀ j ∈ chain, (heap j).impl.responsibility = m.type → j = k)
    (hfuel : chain.length ≤ fuel) :
    handle fuel heap self m w =
        some (((heap k).impl.process m w).1, ((heap k).impl.process m w).2.toOutcome) ∧
    (∃ pre post, chain = pre ++ k :: post ∧ handleCalls fuel heap self m w = pre ++ [k] ∧
      (∀ j ∈ pre, (heap j).impl.process m w = (w, ProcResult.ret false)) ∧
      (∀ j ∈ post, j ∉ handleCalls fuel heap self m w)) ∧
    (handleCalls fuel heap self m w).count k = 1 ∧
    ((heap k).impl = Variant.WarningHandler →
      handle fuel heap self m w =
        some ({ w with stdout := w.stdout ++ m.message ++ "\n" }, Outcome.returned)) ∧
    (∀ p, (heap k).impl = Variant.ErrorHandler p →
      handle fuel heap self m w = some (w.appendLine p m.message, Outcome.returned)) ∧
    (∀ p c, (heap k).impl = Variant.ErrorHandler p → w.files p = some c →
      handle fuel heap self m w =
        some ({ w with files := fun q => if q = p then some (c ++ m.message ++ "\n")
                                         else w.files q }, Outcome.returned)) ∧
    ((heap k).impl = Variant.FatalErrorHandler →
      handle fuel heap self m w = some (w, Outcome.thrown m.message)) ∧
    ((heap k).impl = Variant.UnknownHandler →
      handle fuel heap self m w =
        some (w, Outcome.thrown ("Unhandled message (" ++ m.message ++ ")"))) := by
  obtain ⟨pre, k1, post, hsplit, hk1, hpre⟩ :=
    exists_first_match (fun j => (heap j).impl.responsibility = m.type) chain k hk hm
  have hk1k : k1 = k := huniq k1 (by rw [hsplit]; simp) hk1
  subst hk1k
  subst hsplit
  have hlen : pre.length + 1 ≤ fuel := by
    simp only [List.length_append, List.length_cons] at hfuel
    omega
  have hmain := handle_first_match_le pre post m w fuel hc hpre hk1 hlen
  have hnd := IsChain.nodup hc
  have hkpre : k1 ∉ pre := by
    intro hmem
    have := List.nodup_append.mp hnd
    exact this.2.2 hmem (List.mem_cons_self _ _)
  refine ⟨hmain.1, ⟨pre, post, rfl, hmain.2, ?_, ?_⟩, ?_, ?_, ?_, ?_, ?_, ?_⟩
  · intro j hj
    exact process_of_ne (heap j).impl m w (hpre j hj)
  · intro j hj
    rw [hmain.2]
    intro hmem
    rcases List.mem_append.mp hmem with h | h
    · exact (List.nodup_append.mp hnd).2.2 h (List.mem_cons_of_mem _ hj)
    · have hjk : j = k1 := by simpa using h
      subst hjk
      have h2 := (List.nodup_append.mp hnd).2.1
      exact (List.nodup_cons.mp h2).1 hj
  · rw [hmain.2, List.count_append, List.count_eq_zero_of_not_mem hkpre]
    simp
  · intro hv
    rw [hmain.1, hv, process_warning m w (by rw [← hk1, hv]; rfl)]
    rfl
  · intro p hv
    rw [hmain.1, hv, process_error p m w (by rw [← hk1, hv]; rfl)]
    rfl
  · intro p c hv hopen
    rw [hmain.1, hv, process_error p m w (by rw [← hk1, hv]; rfl),
      appendLine_openable w p m.message c hopen]
    rfl
  · intro hv
    rw [hmain.1, hv, process_fatal m w (by rw [← hk1, hv]; rfl)]
    rfl
  · intro hv
    rw [hmain.1, hv, process_unknown m w (by rw [← hk1, hv]; rfl)]
    rfl

/-- Witness for C2: an ERROR message dispatched from the head of the chain of `main`
appends one line to `logs.txt` and does nothing else. -/
theorem C2_unique_match_action_witness :
    handle 4 mainHeap fatalHandler ⟨LogType.ERROR, "Error message"⟩ World.sample =
      some (World.sample.appendLine "logs.txt" "Error message", Outcome.returned) :=
  (C2_unique_match_action mainHeap fatalHandler errorHandler
    [fatalHandler, errorHandler, warningHandler, unknownHandler]
    ⟨LogType.ERROR, "Error message"⟩ World.sample 4 mainHeap_isChain (by decide) rfl
    (by decide) (by decide)).2.2.2.2.1 "logs.txt" rfl

/-- C3: when no object reachable from the entry object matches the message's
classification, `handle` returns normally with the world unchanged (nothing on the
standard output, no file written) and without an exception, after every object of
the chain has run `process` once. -/
theorem C3_unmatched_silent_drop (heap : Heap) (self : Addr) (chain : List Addr)
    (m : LogMessage) (w : World) (fuel : Nat) (hc : IsChain heap self chain)
    (hno : ∀ j ∈ chain, (heap j).impl.responsibility ≠ m.type)
    (hfuel : chain.length ≤ fuel) :
    handle fuel heap self m w = some (w, Outcome.returned) ∧
      handleCalls fuel heap self m w = chain :=
  handle_unmatched_le chain m w fuel hc hno hfuel

/-- Witness for C3: a FATAL_ERROR message dispatched through a chain that holds
only a Warning handler. -/
theorem C3_unmatched_silent_drop_witness :
    handle 1 (fun _ => { impl := Variant.WarningHandler, nextHandler := none }) 0
        ⟨LogType.FATAL_ERROR, "Fatal error message"⟩ World.sample =
      some (World.sample, Outcome.returned) :=
  (C3_unmatched_silent_drop (fun _ => { impl := Variant.WarningHandler, nextHandler := none })
    0 [0] ⟨LogType.FATAL_ERROR, "Fatal error message"⟩ World.sample 1 (by decide)
    (by decide) (by decide)).1

/-- C4: in a chain that holds a FatalError handler at any position, dispatching a
FATAL_ERROR message with text `t` from the head ends with an exception whose payload
is exactly `t`, the world unchanged; dispatching "Fatal error message" at the
`fatalHandler` of `main` gives the payload "Fatal error message". -/
theorem C4_fatal_payload (heap : Heap) (self k : Addr) (chain : List Addr) (t : String)
    (w : World) (fuel : Nat) (hc : IsChain heap self chain) (hk : k ∈ chain)
    (hf : (heap k).impl = Variant.FatalErrorHandler) (hfuel : chain.length ≤ fuel) :
    handle fuel heap self ⟨LogType.FATAL_ERROR, t⟩ w = some (w, Outcome.thrown t) ∧
    (∀ (w0 : World) (n : Nat),
      handle (n + 1) mainHeap fatalHandler ⟨LogType.FATAL_ERROR, "Fatal error message"⟩ w0 =
        some (w0, Outcome.thrown "Fatal error message")) := by
  constructor
  · obtain ⟨pre, k1, post, hsplit, hk1, hpre⟩ :=
      exists_first_match (fun j => (heap j).impl.responsibility = LogType.FATAL_ERROR)
        chain k hk (by simp only [hf]; rfl)
    subst hsplit
    have hlen : pre.length + 1 ≤ fuel := by
      simp only [List.length_append, List.length_cons] at hfuel
      omega
    have hmain := handle_first_match_le pre post ⟨LogType.FATAL_ERROR, t⟩ w fuel hc hpre hk1 hlen
    have hv : (heap k1).impl = Variant.FatalErrorHandler := by
      cases hi : (heap k1).impl <;> simp [hi, Variant.responsibility] at hk1
      rfl
    rw [hmain.1, hv, process_fatal _ w rfl]
    rfl
  · intro w0 n
    rfl

/-- Witness for C4: the FatalError handler is the last of three objects. -/
theorem C4_fatal_payload_witness :
    handle 3
        (fun a => match a with
          | 0 => { impl := Variant.WarningHandler, nextHandler := some 1 }
          | 1 => { impl := Variant.UnknownHandler, nextHandler := some 2 }
          | _ => { impl := Variant.FatalErrorHandler, nextHandler := none })
        0 ⟨LogType.FATAL_ERROR, "disk failure"⟩ World.sample =
      some (World.sample, Outcome.thrown "disk failure") :=
  (C4_fatal_payload
    (fun a => match a with
      | 0 => { impl := Variant.WarningHandler, nextHandler := some 1 }
      | 1 => { impl := Variant.UnknownHandler, nextHandler := some 2 }
      | _ => { impl := Variant.FatalErrorHandler, nextHandler := none })
    0 2 [0, 1, 2] "disk failure" World.sample 3 (by decide) (by decide) rfl (by decide)).1

/-- C5: in a chain whose terminal object is the Unknown handler, dispatching an
UNKNOWN message with text `t` from any object of the chain ends with an exception
whose payload is exactly "Unhandled message (" followed by `t` and ")", the world
unchanged; the text "UNKNOWN" dispatched at the `unknownHandler` of `main` gives
"Unhandled message (UNKNOWN)". -/
theorem C5_unknown_payload (heap : Heap) (self entry last : Addr) (chain : List Addr)
    (t : String) (w : World) (fuel : Nat) (hc : IsChain heap self chain)
    (hlast : chain.getLast? = some last) (hu : (heap last).impl = Variant.UnknownHandler)
    (hentry : entry ∈ chain) (hfuel : chain.length ≤ fuel) :
    handle fuel heap entry ⟨LogType.UNKNOWN, t⟩ w =
        some (w, Outcome.thrown ("Unhandled message (" ++ t ++ ")")) ∧
    (∀ (w0 : World) (n : Nat),
      handle (n + 1) mainHeap unknownHandler ⟨LogType.UNKNOWN, "UNKNOWN"⟩ w0 =
        some (w0, Outcome.thrown "Unhandled message (UNKNOWN)")) := by
  constructor
  · obtain ⟨pre0, post0, hsplit0⟩ := List.append_of_mem hentry
    subst hsplit0
    have hsuf : IsChain heap entry (entry :: post0) := IsChain.suffix pre0 post0 hc
    have hlast2 : (entry :: post0).getLast? = some last := by
      rw [List.getLast?_append_of_ne_nil pre0 (List.cons_ne_nil _ _)] at hlast
      exact hlast
    have hmem : last ∈ entry :: post0 := List.mem_of_getLast?_eq_some hlast2
    obtain ⟨pre, k1, post, hsplit, hk1, hpre⟩ :=
      exists_first_match (fun j => (heap j).impl.responsibility = LogType.UNKNOWN)
        (entry :: post0) last hmem (by simp only [hu]; rfl)
    rw [hsplit] at hsuf
    have hlen : pre.length + 1 ≤ fuel := by
      have h1 := congrArg List.length hsplit
      simp only [List.length_append, List.length_cons] at hfuel h1
      omega
    have hmain := handle_first_match_le pre post ⟨LogType.UNKNOWN, t⟩ w fuel hsuf hpre hk1 hlen
    have hv : (heap k1).impl = Variant.UnknownHandler := by
      cases hi : (heap k1).impl <;> simp [hi, Variant.responsibility] at hk1
      rfl
    rw [hmain.1, hv, process_unknown _ w rfl]
    rfl
  · intro w0 n
    rfl

/-- Witness for C5: an UNKNOWN message entering the chain of `main` at `errorHandler`. -/
theorem C5_unknown_payload_witness :
    handle 4 mainHeap errorHandler ⟨LogType.UNKNOWN, "UNKNOWN"⟩ World.sample =
      some (World.sample, Outcome.thrown "Unhandled message (UNKNOWN)") :=
  (C5_unknown_payload mainHeap fatalHandler errorHandler unknownHandler
    [fatalHandler, errorHandler, warningHandler, unknownHandler] "UNKNOWN" World.sample 4
    mainHeap_isChain rfl rfl (by decide) (by decide)).1

/-- C6: each variant's `process` matches exactly one classification (WARNING, ERROR,
FATAL_ERROR and UNKNOWN in turn).  On any other classification it returns false and
leaves the world unchanged; on its own classification the Warning and Error
variants return true, and the FatalError and Unknown variants throw and do not
return. -/
theorem C6_process_matches_one (v : Variant) (m : LogMessage) (w : World) :
    (Variant.WarningHandler.responsibility = LogType.WARNING ∧
      (∀ p, (Variant.ErrorHandler p).responsibility = LogType.ERROR) ∧
      Variant.FatalErrorHandler.responsibility = LogType.FATAL_ERROR ∧
      Variant.UnknownHandler.responsibility = LogType.UNKNOWN) ∧
    (m.type ≠ v.responsibility → v.process m w = (w, ProcResult.ret false)) ∧
    (m.type = v.responsibility →
      (v = Variant.WarningHandler →
        v.process m w = (w.writeStdout m.message, ProcResult.ret true)) ∧
      (∀ p, v = Variant.ErrorHandler p →
        v.process m w = (w.appendLine p m.message, ProcResult.ret true)) ∧
      (v = Variant.FatalErrorHandler →
        v.process m w = (w, ProcResult.throw m.message)) ∧
      (v = Variant.UnknownHandler →
        v.process m w = (w, ProcResult.throw ("Unhandled message (" ++ m.message ++ ")")))) := by
  refine ⟨⟨rfl, fun _ => rfl, rfl, rfl⟩, ?_, ?_⟩
  · intro hne
    exact process_of_ne v m w (Ne.symm hne)
  · intro heq
    refine ⟨?_, ?_, ?_, ?_⟩
    · intro hv
      subst hv
      exact process_warning m w heq
    · intro p hv
      subst hv
      exact process_error p m w heq
    · intro hv
      subst hv
      exact process_fatal m w heq
    · intro hv
      subst hv
      exact process_unknown m w heq

/-- Witness for C6: the Error variant ignores a WARNING message, and the Unknown
variant throws on an UNKNOWN message. -/
theorem C6_process_matches_one_witness :
    (Variant.ErrorHandler "logs.txt").process ⟨LogType.WARNING, "Warning message"⟩ World.sample =
        (World.sample, ProcResult.ret false) ∧
      Variant.UnknownHandler.process ⟨LogType.UNKNOWN, "UNKNOWN"⟩ World.sample =
        (World.sample, ProcResult.throw "Unhandled message (UNKNOWN)") :=
  ⟨(C6_process_matches_one (Variant.ErrorHandler "logs.txt")
      ⟨LogType.WARNING, "Warning message"⟩ World.sample).2.1 (by decide),
   ((C6_process_matches_one Variant.UnknownHandler ⟨LogType.UNKNOWN, "UNKNOWN"⟩
      World.sample).2.2 rfl).2.2.2 rfl⟩

/-- C7: for an ERROR message and a chain in which the Error handler is followed by
further handlers, when the Error handler's file cannot be opened the write is
skipped (the world, files and standard output included, is unchanged and nothing is
thrown), `process` still returns true, and no handler after the Error handler runs. -/
theorem C7_open_failure_consumed (heap : Heap) (self e : Addr) (pre post : List Addr)
    (p : String) (m : LogMessage) (w : World) (fuel : Nat)
    (hc : IsChain heap self (pre ++ e :: post)) (hpost : post ≠ [])
    (he : (heap e).impl = Variant.ErrorHandler p)
    (hpre : ∀ j ∈ pre, (heap j).impl.responsibility ≠ LogType.ERROR)
    (hm : m.type = LogType.ERROR) (hopen : w.files p = none)
    (hfuel : pre.length + 1 ≤ fuel) :
    (heap e).nextHandler = post.head? ∧ (heap e).nextHandler ≠ none ∧
    (heap e).impl.process m w = (w, ProcResult.ret true) ∧
    handle fuel heap self m w = some (w, Outcome.returned) ∧
    handleCalls fuel heap self m w = pre ++ [e] ∧
    (∀ j ∈ post, j ∉ handleCalls fuel heap self m w) := by
  have hproc : (heap e).impl.process m w = (w, ProcResult.ret true) := by
    rw [he, process_error p m w hm, appendLine_unopenable w p m.message hopen]
  have hke : (heap e).impl.responsibility = m.type := by
    rw [he, hm]
    rfl
  have hpre2 : ∀ j ∈ pre, (heap j).impl.responsibility ≠ m.type := by
    rw [hm]
    exact hpre
  have hmain := handle_first_match_le pre post m w fuel hc hpre2 hke hfuel
  have hnd := IsChain.nodup hc
  have hnext : (heap e).nextHandler = post.head? := by
    cases post with
    | nil => exact absurd rfl hpost
    | cons b rest => exact IsChain.next_eq (IsChain.suffix pre (b :: rest) hc)
  refine ⟨hnext, ?_, hproc, ?_, hmain.2, ?_⟩
  · rw [hnext]
    cases post with
    | nil => exact absurd rfl hpost
    | cons b rest => simp
  · rw [hmain.1, hproc]
    rfl
  · intro j hj
    rw [hmain.2]
    intro hmem
    rcases List.mem_append.mp hmem with h | h
    · exact (List.nodup_append.mp hnd).2.2 h (List.mem_cons_of_mem _ hj)
    · have hje : j = e := by simpa using h
      subst hje
      exact (List.nodup_cons.mp (List.nodup_append.mp hnd).2.1).1 hj

/-- Witness for C7: the chain of `main` in a world where no file can be opened. -/
theorem C7_open_failure_consumed_witness :
    handle 4 mainHeap fatalHandler ⟨LogType.ERROR, "Error message"⟩ World.readOnly =
        some (World.readOnly, Outcome.returned) ∧
      handleCalls 4 mainHeap fatalHandler ⟨LogType.ERROR, "Error message"⟩ World.readOnly =
        [fatalHandler, errorHandler] :=
  ⟨(C7_open_failure_consumed mainHeap fatalHandler errorHandler [fatalHandler]
      [warningHandler, unknownHandler] "logs.txt" ⟨LogType.ERROR, "Error message"⟩
      World.readOnly 4 mainHeap_isChain (by decide) rfl (by decide) rfl rfl
      (by decide)).2.2.2.1,
   (C7_open_failure_consumed mainHeap fatalHandler errorHandler [fatalHandler]
      [warningHandler, unknownHandler] "logs.txt" ⟨LogType.ERROR, "Error message"⟩
      World.readOnly 4 mainHeap_isChain (by decide) rfl (by decide) rfl rfl
      (by decide)).2.2.2.2.1⟩

/-- C8: when the Error handler's file can be opened and holds `c`, dispatching an
ERROR message with text `t` at the Error handler leaves that file with exactly `c`
followed by `t` and a line terminator, changes no other file, writes nothing to the
standard output or error stream, throws nothing and returns. -/
theorem C8_error_appends_line (heap : Heap) (e : Addr) (p t c : String) (w : World)
    (fuel : Nat) (he : (heap e).impl = Variant.ErrorHandler p)
    (hopen : w.files p = some c) :
    handle (fuel + 1) heap e ⟨LogType.ERROR, t⟩ w =
        some ({ stdout := w.stdout, stderr := w.stderr,
                files := fun q => if q = p then some (c ++ t ++ "\n") else w.files q },
              Outcome.returned) ∧
      handleCalls (fuel + 1) heap e ⟨LogType.ERROR, t⟩ w = [e] := by
  have hke : (heap e).impl.responsibility = (⟨LogType.ERROR, t⟩ : LogMessage).type := by
    rw [he]
    rfl
  constructor
  · rw [handle_match fuel heap e _ w hke, he, process_error p _ w rfl,
      appendLine_openable w p t c hopen]
    rfl
  · exact handleCalls_match fuel heap e _ w hke

/-- Witness for C8, the scenario: "Error message" dispatched at the `errorHandler`
of `main` when `logs.txt` holds one earlier line. -/
theorem C8_error_appends_line_witness :
    handle 3 mainHeap errorHandler ⟨LogType.ERROR, "Error message"⟩
        { stdout := "", stderr := "",
          files := fun q => if q = "logs.txt" then some "earlier line\n" else none } =
      some ({ stdout := "", stderr := "",
              files := fun q => if q = "logs.txt" then some ("earlier line\n" ++
                "Error message" ++ "\n")
                else if q = "logs.txt" then some "earlier line\n" else none },
            Outcome.returned) :=
  (C8_error_appends_line mainHeap errorHandler "logs.txt" "Error message" "earlier line\n"
    { stdout := "", stderr := "",
      files := fun q => if q = "logs.txt" then some "earlier line\n" else none }
    2 rfl rfl).1

/-- C9: dispatching a WARNING message with text `t` at the `warningHandler` of the
chain of `main` appends exactly `t` and a line terminator to the standard output,
leaves the files and the error stream unchanged and throws nothing; only the Warning
handler runs.  The text "Warning message" on an empty output gives
"Warning message\n". -/
theorem C9_warning_stdout (t : String) (w : World) (fuel : Nat) :
    handle (fuel + 1) mainHeap warningHandler ⟨LogType.WARNING, t⟩ w =
        some ({ stdout := w.stdout ++ t ++ "\n", stderr := w.stderr, files := w.files },
              Outcome.returned) ∧
      handleCalls (fuel + 1) mainHeap warningHandler ⟨LogType.WARNING, t⟩ w =
        [warningHandler] ∧
      handle 4 mainHeap warningHandler ⟨LogType.WARNING, "Warning message"⟩ World.sample =
        some ({ stdout := "Warning message\n", stderr := World.sample.stderr,
                files := World.sample.files }, Outcome.returned) :=
  ⟨rfl, rfl, rfl⟩

/-- C10: in the chain linked by `main` (Fatal, Error, Warning, Unknown) every
classification is matched by exactly one handler; so a message dispatched at
`fatalHandler` always ends at the one matching handler with that handler's effect
and result, every handler before it having returned false without effect, and no
message passes the terminal handler unconsumed. -/
theorem C10_reference_chain_total :
    IsChain mainHeap fatalHandler [fatalHandler, errorHandler, warningHandler, unknownHandler] ∧
    (∀ ty : LogType, ∃! k, k ∈ [fatalHandler, errorHandler, warningHandler, unknownHandler] ∧
      (mainHeap k).impl.responsibility = ty) ∧
    (∀ (m : LogMessage) (w : World) (fuel : Nat), 4 ≤ fuel →
      ∃ k pre post, [fatalHandler, errorHandler, warningHandler, unknownHandler] =
          pre ++ k :: post ∧
        (mainHeap k).impl.responsibility = m.type ∧
        handle fuel mainHeap fatalHandler m w =
          some (((mainHeap k).impl.process m w).1,
            ((mainHeap k).impl.process m w).2.toOutcome) ∧
        ((mainHeap k).impl.process m w).2 ≠ ProcResult.ret false ∧
        handleCalls fuel mainHeap fatalHandler m w = pre ++ [k] ∧
        (∀ j ∈ pre, (mainHeap j).impl.process m w = (w, ProcResult.ret false))) ∧
    (∀ (t : String) (w : World) (fuel : Nat), 4 ≤ fuel →
      handle fuel mainHeap fatalHandler ⟨LogType.WARNING, t⟩ w =
          some (w.writeStdout t, Outcome.returned) ∧
        handle fuel mainHeap fatalHandler ⟨LogType.ERROR, t⟩ w =
          some (w.appendLine "logs.txt" t, Outcome.returned) ∧
        handle fuel mainHeap fatalHandler ⟨LogType.FATAL_ERROR, t⟩ w =
          some (w, Outcome.thrown t) ∧
        handle fuel mainHeap fatalHandler ⟨LogType.UNKNOWN, t⟩ w =
          some (w, Outcome.thrown ("Unhandled message (" ++ t ++ ")"))) := by
  have hex : ∀ ty : LogType, ∃ k,
      k ∈ [fatalHandler, errorHandler, warningHandler, unknownHandler] ∧
        (mainHeap k).impl.responsibility = ty := by
    intro ty
    cases ty
    · exact ⟨warningHandler, by decide, rfl⟩
    · exact ⟨errorHandler, by decide, rfl⟩
    · exact ⟨fatalHandler, by decide, rfl⟩
    · exact ⟨unknownHandler, by decide, rfl⟩
  refine ⟨mainHeap_isChain, ?_, ?_, ?_⟩
  · intro ty
    obtain ⟨k, hk, hr⟩ := hex ty
    refine ⟨k, ⟨hk, hr⟩, ?_⟩
    rintro y ⟨hy, hyr⟩
    have hk4 : k = 0 ∨ k = 1 ∨ k = 2 ∨ k = 3 := by
      simpa [fatalHandler, errorHandler, warningHandler, unknownHandler] using hk
    have hy4 : y = 0 ∨ y = 1 ∨ y = 2 ∨ y = 3 := by
      simpa [fatalHandler, errorHandler, warningHandler, unknownHandler] using hy
    rw [← hr] at hyr
    rcases hk4 with rfl | rfl | rfl | rfl <;> rcases hy4 with rfl | rfl | rfl | rfl <;>
      first
        | rfl
        | exact absurd hyr (by decide)
  · intro m w fuel hfuel
    obtain ⟨k, hk, hr⟩ := hex m.type
    obtain ⟨pre, k1, post, hsplit, hk1, hpre⟩ :=
      exists_first_match (fun j => (mainHeap j).impl.responsibility = m.type) _ k hk hr
    have hlen : pre.length + 1 ≤ fuel := by
      have h1 := congrArg List.length hsplit
      simp only [List.length_append, List.length_cons, List.length_nil] at h1
      omega
    have hc : IsChain mainHeap fatalHandler (pre ++ k1 :: post) := hsplit ▸ mainHeap_isChain
    have hmain := handle_first_match_le pre post m w fuel hc hpre hk1 hlen
    exact ⟨k1, pre, post, hsplit, hk1, hmain.1, process_of_eq _ m w hk1, hmain.2,
      fun j hj => process_of_ne _ m w (hpre j hj)⟩
  · intro t w fuel hfuel
    obtain ⟨n, rfl⟩ := Nat.exists_eq_add_of_le hfuel
    have e : 4 + n = n + 4 := by omega
    rw [e]
    exact ⟨rfl, rfl, rfl, rfl⟩

/-- Witness for C10: with fuel 4, an UNKNOWN message dispatched at `fatalHandler`
is answered by the Unknown handler after all four handlers ran. -/
theorem C10_reference_chain_total_witness :
    handle 4 mainHeap fatalHandler ⟨LogType.UNKNOWN, "UNKNOWN"⟩ World.sample =
      some (World.sample, Outcome.thrown ("Unhandled message (" ++ "UNKNOWN" ++ ")")) :=
  (C10_reference_chain_total.2.2.2 "UNKNOWN" World.sample 4 (by decide)).2.2.2

/-! ## Termination and the call trace on chains -/

/-- A nested call is made only through a non-null `nextHandler`, and only after
`process` returned false. -/
theorem handleStep_forward_inv (heap : Heap) (self next : Addr) (m : LogMessage)
    (w w1 : World) (hs : handleStep heap self m w = Step.forward next w1) :
    (heap self).nextHandler = some next ∧
      (heap self).impl.process m w = (w1, ProcResult.ret false) := by
  unfold handleStep at hs
  rcases hp : (heap self).impl.process m w with ⟨w2, r⟩
  rw [hp] at hs
  cases r with
  | throw what => simp at hs
  | ret b =>
    cases b with
    | true => simp at hs
    | false =>
      cases hn : (heap self).nextHandler with
      | none => simp [hn] at hs
      | some nx =>
        simp [hn] at hs
        rw [hs.1, hs.2]
        exact ⟨rfl, rfl⟩

/-- On a chain, as many activations as the chain has objects are enough for
`handle` to end. -/
theorem handle_terminates {heap : Heap} {self : Addr} (chain : List Addr) (m : LogMessage)
    (w : World) (hc : IsChain heap self chain) :
    ∃ r, handle chain.length heap self m w = some r := by
  induction chain generalizing self w with
  | nil => exact absurd hc (by simp [IsChain])
  | cons a rest ih =>
    have ha := IsChain.head_eq hc
    subst ha
    simp only [List.length_cons, handle]
    cases hs : handleStep heap self m w with
    | finish w1 o => exact ⟨(w1, o), rfl⟩
    | forward next w1 =>
      have hn := (handleStep_forward_inv heap self next m w w1 hs).1
      cases rest with
      | nil =>
        have e1 : (heap self).nextHandler = none := hc.2
        rw [e1] at hn
        cases hn
      | cons b rest =>
        have e1 := IsChain.next_eq hc
        rw [e1] at hn
        cases hn
        exact ih w1 (IsChain.tail hc)

/-- With any fuel, the objects whose `process` runs form an initial part of the chain. -/
theorem handleCalls_prefix {heap : Heap} {self : Addr} (chain : List Addr) (m : LogMessage)
    (w : World) (fuel : Nat) (hc : IsChain heap self chain) :
    handleCalls fuel heap self m w <+: chain := by
  induction fuel generalizing self chain w with
  | zero => exact List.nil_prefix
  | succ n ih =>
    cases chain with
    | nil => exact absurd hc (by simp [IsChain])
    | cons a rest =>
      have ha := IsChain.head_eq hc
      subst ha
      simp only [handleCalls]
      cases hs : handleStep heap self m w with
      | finish w1 o => exact ⟨rest, rfl⟩
      | forward next w1 =>
        have hn := (handleStep_forward_inv heap self next m w w1 hs).1
        cases rest with
        | nil =>
          have e1 : (heap self).nextHandler = none := hc.2
          rw [e1] at hn
          cases hn
        | cons b rest =>
          have e1 := IsChain.next_eq hc
          rw [e1] at hn
          cases hn
          obtain ⟨t, ht⟩ := ih _ w1 (IsChain.tail hc)
          exact ⟨t, by rw [List.cons_append, ht]⟩

/-! ## Paths of `nextHandler` pointers -/

theorem nextIter_succ (heap : Heap) (k : Nat) (self next : Addr)
    (hn : (heap self).nextHandler = some next) :
    nextIter heap (k + 1) self = nextIter heap k next := by
  simp [nextIter, hn]

theorem nextIter_add (heap : Heap) (a b : Nat) (self : Addr) :
    nextIter heap (a + b) self = (nextIter heap a self).bind (nextIter heap b) := by
  induction a generalizing self with
  | zero => simp [nextIter]
  | succ n ih =>
    have e : n + 1 + b = (n + b) + 1 := by omega
    rw [e]
    cases hn : (heap self).nextHandler with
    | none => simp [nextIter, hn]
    | some next => simp [nextIter, hn, ih]

theorem nextIter_isSome_of_le (heap : Heap) (k n : Nat) (self b : Addr) (hle : k ≤ n)
    (hn : nextIter heap n self = some b) : ∃ c, nextIter heap k self = some c := by
  obtain ⟨d, rfl⟩ := Nat.exists_eq_add_of_le hle
  rw [nextIter_add] at hn
  cases hk : nextIter heap k self with
  | none => simp [hk] at hn
  | some c => exact ⟨c, rfl⟩

theorem nextIter_cycle (heap : Heap) (j n : Nat) (c : Addr)
    (hcycle : nextIter heap j c = some c) : nextIter heap (n * j) c = some c := by
  induction n with
  | zero => simp [nextIter]
  | succ n ih =>
    have e : (n + 1) * j = n * j + j := by ring
    rw [e, nextIter_add, ih]
    simpa using hcycle

/-- From an object that reaches a cycle, paths of every length exist: no null
`nextHandler` is ever met. -/
theorem nextIter_endless (heap : Heap) (self c : Addr) (i j : Nat)
    (hreach : nextIter heap i self = some c) (hj : 0 < j)
    (hcycle : nextIter heap j c = some c) (k : Nat) :
    ∃ b, nextIter heap k self = some b := by
  have hlong : nextIter heap (i + k * j) self = some c := by
    rw [nextIter_add, hreach]
    simpa using nextIter_cycle heap j k c hcycle
  have hle : k ≤ i + k * j := by
    have : k * 1 ≤ k * j := Nat.mul_le_mul_left k hj
    omega
  exact nextIter_isSome_of_le heap k (i + k * j) self c hle hlong

/-- While paths of every length exist and no object on them matches the
classification, every activation forwards and no fuel is enough. -/
theorem handle_endless (heap : Heap) (m : LogMessage) (w : World) (fuel : Nat) (self : Addr)
    (hpath : ∀ k, ∃ b, nextIter heap k self = some b)
    (hno : ∀ k b, nextIter heap k self = some b → (heap b).impl.responsibility ≠ m.type) :
    handle fuel heap self m w = none ∧ (handleCalls fuel heap self m w).length = fuel := by
  induction fuel generalizing self with
  | zero => exact ⟨rfl, rfl⟩
  | succ n ih =>
    have hne := hno 0 self rfl
    have hp := process_of_ne (heap self).impl m w hne
    obtain ⟨b1, hb1⟩ := hpath 1
    cases hn : (heap self).nextHandler with
    | none => simp [nextIter, hn] at hb1
    | some next =>
      have hs := handleStep_forward heap self next m w w hp hn
      have hpath2 : ∀ k, ∃ b, nextIter heap k next = some b := by
        intro k
        obtain ⟨b, hb⟩ := hpath (k + 1)
        exact ⟨b, by rw [← nextIter_succ heap k self next hn]; exact hb⟩
      have hno2 : ∀ k b, nextIter heap k next = some b →
          (heap b).impl.responsibility ≠ m.type := by
        intro k b hb
        exact hno (k + 1) b (by rw [nextIter_succ heap k self next hn]; exact hb)
      have h2 := ih next hpath2 hno2
      simp only [handle, handleCalls, hs, List.length_cons]
      exact ⟨h2.1, by rw [h2.2]⟩

/-- The outcome and the call trace of `handle` are the same in two stores that
agree on every object reachable from the entry object. -/
theorem handle_congr_reachable (heap1 heap2 : Heap) (m : LogMessage) (fuel : Nat)
    (self : Addr) (w : World)
    (hagree : ∀ k b, nextIter heap1 k self = some b → heap2 b = heap1 b) :
    handle fuel heap2 self m w = handle fuel heap1 self m w ∧
      handleCalls fuel heap2 self m w = handleCalls fuel heap1 self m w := by
  induction fuel generalizing self w with
  | zero => exact ⟨rfl, rfl⟩
  | succ n ih =>
    have h0 : heap2 self = heap1 self := hagree 0 self rfl
    have hstep : handleStep heap2 self m w = handleStep heap1 self m w := by
      simp only [handleStep, h0]
    cases hs : handleStep heap1 self m w with
    | finish w1 o =>
      simp [handle, handleCalls, hstep, hs]
    | forward next w1 =>
      have hn := (handleStep_forward_inv heap1 self next m w w1 hs).1
      have h2 := ih next w1 (fun k b hb =>
        hagree (k + 1) b (by rw [nextIter_succ heap1 k self next hn]; exact hb))
      simp only [handle, handleCalls, hstep, hs]
      exact ⟨h2.1, by rw [h2.2]⟩

/-- Every object whose `process` runs is reachable from the entry object. -/
theorem handleCalls_reachable (heap : Heap) (m : LogMessage) (fuel : Nat) (self : Addr)
    (w : World) (b : Addr) (hb : b ∈ handleCalls fuel heap self m w) :
    ∃ k, nextIter heap k self = some b := by
  induction fuel generalizing self w with
  | zero => simp [handleCalls] at hb
  | succ n ih =>
    simp only [handleCalls] at hb
    cases hs : handleStep heap self m w with
    | finish w1 o =>
      rw [hs] at hb
      have : b = self := by simpa using hb
      exact ⟨0, by rw [this]; rfl⟩
    | forward next w1 =>
      rw [hs] at hb
      have hn := (handleStep_forward_inv heap self next m w w1 hs).1
      rcases List.mem_cons.mp hb with h | h
      · exact ⟨0, by rw [h]; rfl⟩
      · obtain ⟨k, hk⟩ := ih next w1 h
        exact ⟨k + 1, by rw [nextIter_succ heap k self next hn]; exact hk⟩

/-! ## The driver -/

theorem tryBlock_cons_thrown (fuel : Nat) (heap : Heap) (entry : Addr) (m : LogMessage)
    (rest : List Call) (w w1 : World) (what : String)
    (h : handle fuel heap entry m w = some (w1, Outcome.thrown what)) :
    tryBlock fuel heap ((entry, m) :: rest) w =
      some { world := w1, outcome := Outcome.thrown what, performed := [(entry, m)] } := by
  simp [tryBlock, h]

theorem tryBlock_cons_returned (fuel : Nat) (heap : Heap) (entry : Addr) (m : LogMessage)
    (rest : List Call) (w w1 : World)
    (h : handle fuel heap entry m w = some (w1, Outcome.returned)) :
    tryBlock fuel heap ((entry, m) :: rest) w =
      (tryBlock fuel heap rest w1).map (fun r =>
        { world := r.world, outcome := r.outcome, performed := (entry, m) :: r.performed }) := by
  simp only [tryBlock, h]
  cases tryBlock fuel heap rest w1 <;> rfl

/-- Dispatch at `warningHandler` in the chain of `main`: only an UNKNOWN message
ends with an exception, thrown by `unknownHandler`; the world is changed only by a
WARNING message. -/
theorem handle_at_warningHandler (fuel : Nat) (m : LogMessage) (w : World) (hfuel : 4 ≤ fuel) :
    ∃ w1, handle fuel mainHeap warningHandler m w =
        some (w1, if m.type = LogType.UNKNOWN
          then Outcome.thrown ("Unhandled message (" ++ m.message ++ ")")
          else Outcome.returned) ∧
      (m.type ≠ LogType.WARNING → w1 = w) := by
  obtain ⟨n, rfl⟩ := Nat.exists_eq_add_of_le hfuel
  have e : 4 + n = n + 4 := by omega
  rw [e]
  rcases m with ⟨ty, t⟩
  cases ty
  · exact ⟨w.writeStdout t, rfl, fun h => absurd rfl h⟩
  · exact ⟨w, rfl, fun _ => rfl⟩
  · exact ⟨w, rfl, fun _ => rfl⟩
  · exact ⟨w, rfl, fun _ => rfl⟩

/-- Dispatch at `errorHandler` in the chain of `main`: only an UNKNOWN message ends
with an exception; the world is changed only by an ERROR or a WARNING message. -/
theorem handle_at_errorHandler (fuel : Nat) (m : LogMessage) (w : World) (hfuel : 4 ≤ fuel) :
    ∃ w1, handle fuel mainHeap errorHandler m w =
        some (w1, if m.type = LogType.UNKNOWN
          then Outcome.thrown ("Unhandled message (" ++ m.message ++ ")")
          else Outcome.returned) ∧
      (m.type = LogType.UNKNOWN → w1 = w) := by
  obtain ⟨n, rfl⟩ := Nat.exists_eq_add_of_le hfuel
  have e : 4 + n = n + 4 := by omega
  rw [e]
  rcases m with ⟨ty, t⟩
  cases ty
  · exact ⟨w.writeStdout t, rfl, fun h => by cases h⟩
  · exact ⟨w.appendLine "logs.txt" t, rfl, fun h => by cases h⟩
  · exact ⟨w, rfl, fun _ => rfl⟩
  · exact ⟨w, rfl, fun _ => rfl⟩

/-- Dispatch at `fatalHandler` in the chain of `main` always ends. -/
theorem handle_at_fatalHandler (fuel : Nat) (m : LogMessage) (w : World) (hfuel : 4 ≤ fuel) :
    ∃ w1 o, handle fuel mainHeap fatalHandler m w = some (w1, o) := by
  obtain ⟨r, hr⟩ := handle_terminates
    [fatalHandler, errorHandler, warningHandler, unknownHandler] m w mainHeap_isChain
  exact ⟨r.1, r.2, handle_of_le _ fuel mainHeap fatalHandler m w r hr hfuel⟩

/-- Dispatch at `unknownHandler` in the chain of `main`: the world is unchanged, and
an exception is thrown exactly for an UNKNOWN message. -/
theorem handle_at_unknownHandler (fuel : Nat) (m : LogMessage) (w : World) :
    handle (fuel + 1) mainHeap unknownHandler m w =
      some (w, if m.type = LogType.UNKNOWN
        then Outcome.thrown ("Unhandled message (" ++ m.message ++ ")")
        else Outcome.returned) := by
  rcases m with ⟨ty, t⟩
  cases ty <;> rfl

/-- The second try block of `main`, with its catch clause. -/
theorem tryBlock_unknown (fuel : Nat) (m : LogMessage) (w : World) :
    tryBlock (fuel + 1) mainHeap [(unknownHandler, m)] w =
      some { world := w,
             outcome := if m.type = LogType.UNKNOWN
               then Outcome.thrown ("Unhandled message (" ++ m.message ++ ")")
               else Outcome.returned,
             performed := [(unknownHandler, m)] } := by
  rcases m with ⟨ty, t⟩
  cases ty <;> rfl

theorem main_first_block (fuel : Nat) (w : World) :
    tryBlock (fuel + 1) mainHeap
        [(warningHandler, warningMessage), (errorHandler, errorMessage),
          (fatalHandler, fatalErrorMessage)] w =
      some { world := (w.writeStdout "Warning message").appendLine "logs.txt" "Error message",
             outcome := Outcome.thrown "Fatal error message",
             performed := [(warningHandler, warningMessage), (errorHandler, errorMessage),
               (fatalHandler, fatalErrorMessage)] } := by
  have h1 : handle (fuel + 1) mainHeap warningHandler warningMessage w =
      some (w.writeStdout "Warning message", Outcome.returned) := rfl
  have h2 : handle (fuel + 1) mainHeap errorHandler errorMessage
      (w.writeStdout "Warning message") =
      some ((w.writeStdout "Warning message").appendLine "logs.txt" "Error message",
        Outcome.returned) := rfl
  have h3 : handle (fuel + 1) mainHeap fatalHandler fatalErrorMessage
      ((w.writeStdout "Warning message").appendLine "logs.txt" "Error message") =
      some ((w.writeStdout "Warning message").appendLine "logs.txt" "Error message",
        Outcome.thrown "Fatal error message") := rfl
  rw [tryBlock_cons_returned _ _ _ _ _ _ _ h1, tryBlock_cons_returned _ _ _ _ _ _ _ h2,
    tryBlock_cons_thrown _ _ _ _ _ _ _ _ h3]
  rfl

/-- The whole of `main`, for any world and any positive fuel. -/
theorem main_eq (fuel : Nat) (w : World) :
    main (fuel + 1) w =
      some { world :=
               catchClause
                 (catchClause
                   ((w.writeStdout "Warning message").appendLine "logs.txt" "Error message")
                   (Outcome.thrown "Fatal error message"))
                 (Outcome.thrown "Unhandled message (UNKNOWN)"),
             exitCode := 0,
             performed := [(warningHandler, warningMessage), (errorHandler, errorMessage),
               (fatalHandler, fatalErrorMessage), (unknownHandler, unknownMessage)] } := by
  simp only [main, driver, main_first_block, tryBlock_unknown]
  rfl

/-- C11: run with a `logs.txt` that can be opened (holding `c`), `main` appends
"Warning message\n" to the standard output, leaves `logs.txt` holding `c` followed
by the line "Error message", appends "Exception: Fatal error message\n" and then
"Exception: Unhandled message (UNKNOWN)\n" to the standard error stream, catches
both exceptions and ends with exit code 0. -/
theorem C11_driver_behaviour (fuel : Nat) (w : World) (c : String) (hfuel : 1 ≤ fuel)
    (hopen : w.files "logs.txt" = some c) :
    main fuel w =
      some { world :=
               { stdout := w.stdout ++ "Warning message\n",
                 stderr := w.stderr ++ "Exception: Fatal error message\n" ++
                   "Exception: Unhandled message (UNKNOWN)\n",
                 files := fun q =>
                   if q = "logs.txt" then some (c ++ "Error message\n") else w.files q },
             exitCode := 0,
             performed := [(warningHandler, warningMessage), (errorHandler, errorMessage),
               (fatalHandler, fatalErrorMessage), (unknownHandler, unknownMessage)] } := by
  obtain ⟨n, rfl⟩ := Nat.exists_eq_add_of_le hfuel
  have e : 1 + n = n + 1 := by omega
  have hopen2 : (w.writeStdout "Warning message").files "logs.txt" = some c := hopen
  rw [e, main_eq, appendLine_openable _ _ _ _ hopen2]
  have s1 : w.stdout ++ "Warning message" ++ "\n" = w.stdout ++ "Warning message\n" := by
    rw [String.append_assoc]
    rfl
  have s2 : c ++ "Error message" ++ "\n" = c ++ "Error message\n" := by
    rw [String.append_assoc]
    rfl
  have s3 : w.stderr ++ "Exception: " ++ "Fatal error message" ++ "\n" ++ "Exception: " ++
      "Unhandled message (UNKNOWN)" ++ "\n" =
      w.stderr ++ "Exception: Fatal error message\n" ++
        "Exception: Unhandled message (UNKNOWN)\n" := by
    simp only [String.append_assoc]
    rfl
  simp only [catchClause, World.writeStdout, s1, s2, s3]

/-- Witness for C11: `main` run in a world with empty streams and an empty `logs.txt`. -/
theorem C11_driver_behaviour_witness :
    (main 4 World.sample).map (fun r =>
        (r.world.stdout, r.world.stderr, r.world.files "logs.txt", r.exitCode)) =
      some ("Warning message\n",
        "Exception: Fatal error message\nException: Unhandled message (UNKNOWN)\n",
        some "Error message\n", 0) := by
  rw [C11_driver_behaviour 4 World.sample "" (by decide) rfl]
  rfl

/-- C12, as stated, fails: when the first dispatch call of `main` is given an UNKNOWN
message, its exception is caught and logged, but the second and third dispatch
calls, which stand in the same try block, are not performed: `logs.txt` does not
receive the ERROR message and the FATAL_ERROR message is never logged. -/
theorem C12_later_calls_skipped :
    handle 4 mainHeap warningHandler ⟨LogType.UNKNOWN, "x"⟩ World.sample =
        some (World.sample, Outcome.thrown "Unhandled message (x)") ∧
      (driver 4 ⟨LogType.UNKNOWN, "x"⟩ errorMessage fatalErrorMessage unknownMessage
          World.sample).map (fun r =>
        (r.performed, r.world.stdout, r.world.stderr, r.world.files "logs.txt", r.exitCode)) =
      some ([(warningHandler, ⟨LogType.UNKNOWN, "x"⟩), (unknownHandler, unknownMessage)],
        "", "Exception: Unhandled message (x)\nException: Unhandled message (UNKNOWN)\n",
        some "", 0) ∧
      handle 4 mainHeap errorHandler errorMessage World.sample =
        some (World.sample.appendLine "logs.txt" "Error message", Outcome.returned) ∧
      (World.sample.appendLine "logs.txt" "Error message").files "logs.txt" =
        some "Error message\n" :=
  ⟨rfl, rfl, rfl, rfl⟩

/-- C12, amended: for every choice of the four messages the driver ends with exit
code 0, every exception being caught and logged with the prefix "Exception: ".
An exception in the first try block aborts that dispatch and skips the dispatch
calls that follow it in the same block; the fourth dispatch call, in a try block
of its own, is always performed, after the log line of the first block. -/
theorem C12_driver_continues_after_block (fuel : Nat) (m1 m2 m3 m4 : LogMessage) (w : World)
    (hfuel : 4 ≤ fuel) :
    ∃ r, driver fuel m1 m2 m3 m4 w = some r ∧ r.exitCode = 0 ∧
      r.performed.getLast? = some (unknownHandler, m4) ∧
      (m1.type = LogType.UNKNOWN →
        r.performed = [(warningHandler, m1), (unknownHandler, m4)] ∧
        r.world =
          catchClause
            (catchClause w (Outcome.thrown ("Unhandled message (" ++ m1.message ++ ")")))
            (if m4.type = LogType.UNKNOWN
              then Outcome.thrown ("Unhandled message (" ++ m4.message ++ ")")
              else Outcome.returned)) ∧
      (m1.type ≠ LogType.UNKNOWN → m2.type = LogType.UNKNOWN →
        r.performed = [(warningHandler, m1), (errorHandler, m2), (unknownHandler, m4)] ∧
        ∃ w1, handle fuel mainHeap warningHandler m1 w = some (w1, Outcome.returned) ∧
          r.world =
            catchClause
              (catchClause w1 (Outcome.thrown ("Unhandled message (" ++ m2.message ++ ")")))
              (if m4.type = LogType.UNKNOWN
                then Outcome.thrown ("Unhandled message (" ++ m4.message ++ ")")
                else Outcome.returned)) ∧
      (m1.type ≠ LogType.UNKNOWN → m2.type ≠ LogType.UNKNOWN →
        r.performed = [(warningHandler, m1), (errorHandler, m2), (fatalHandler, m3),
          (unknownHandler, m4)] ∧
        ∃ w1 w2 w3 o3, handle fuel mainHeap warningHandler m1 w = some (w1, Outcome.returned) ∧
          handle fuel mainHeap errorHandler m2 w1 = some (w2, Outcome.returned) ∧
          handle fuel mainHeap fatalHandler m3 w2 = some (w3, o3) ∧
          r.world =
            catchClause (catchClause w3 o3)
              (if m4.type = LogType.UNKNOWN
                then Outcome.thrown ("Unhandled message (" ++ m4.message ++ ")")
                else Outcome.returned)) := by
  obtain ⟨n, rfl⟩ : ∃ n, fuel = n + 1 := ⟨fuel - 1, by omega⟩
  obtain ⟨w1, h1, hw1⟩ := handle_at_warningHandler (n + 1) m1 w hfuel
  by_cases c1 : m1.type = LogType.UNKNOWN
  · rw [if_pos c1] at h1
    have hw : w1 = w := hw1 (by rw [c1]; decide)
    rw [hw] at h1
    have hd : driver (n + 1) m1 m2 m3 m4 w =
        some { world :=
                 catchClause
                   (catchClause w
                     (Outcome.thrown ("Unhandled message (" ++ m1.message ++ ")")))
                   (if m4.type = LogType.UNKNOWN
                     then Outcome.thrown ("Unhandled message (" ++ m4.message ++ ")")
                     else Outcome.returned),
               exitCode := 0,
               performed := [(warningHandler, m1), (unknownHandler, m4)] } := by
      simp only [driver, tryBlock_cons_thrown _ _ _ _ _ _ _ _ h1, tryBlock_unknown]
      rfl
    exact ⟨_, hd, rfl, rfl, fun _ => ⟨rfl, rfl⟩, fun h => absurd c1 h, fun h => absurd c1 h⟩
  · rw [if_neg c1] at h1
    obtain ⟨w2, h2, hw2⟩ := handle_at_errorHandler (n + 1) m2 w1 hfuel
    by_cases c2 : m2.type = LogType.UNKNOWN
    · rw [if_pos c2] at h2
      have hw : w2 = w1 := hw2 c2
      rw [hw] at h2
      have hd : driver (n + 1) m1 m2 m3 m4 w =
          some { world :=
                   catchClause
                     (catchClause w1
                       (Outcome.thrown ("Unhandled message (" ++ m2.message ++ ")")))
                     (if m4.type = LogType.UNKNOWN
                       then Outcome.thrown ("Unhandled message (" ++ m4.message ++ ")")
                       else Outcome.returned),
                 exitCode := 0,
                 performed := [(warningHandler, m1), (errorHandler, m2),
                   (unknownHandler, m4)] } := by
        simp only [driver, tryBlock_cons_returned _ _ _ _ _ _ _ h1,
          tryBlock_cons_thrown _ _ _ _ _ _ _ _ h2, tryBlock_unknown, Option.map_some']
        rfl
      exact ⟨_, hd, rfl, rfl, fun h => absurd h c1, fun _ _ => ⟨rfl, w1, h1, rfl⟩,
        fun _ h => absurd c2 h⟩
    · rw [if_neg c2] at h2
      obtain ⟨w3, o3, h3⟩ := handle_at_fatalHandler (n + 1) m3 w2 hfuel
      have hblock : tryBlock (n + 1) mainHeap
          [(warningHandler, m1), (errorHandler, m2), (fatalHandler, m3)] w =
          some { world := w3, outcome := o3,
                 performed := [(warningHandler, m1), (errorHandler, m2),
                   (fatalHandler, m3)] } := by
        rw [tryBlock_cons_returned _ _ _ _ _ _ _ h1, tryBlock_cons_returned _ _ _ _ _ _ _ h2]
        cases o3 with
        | returned =>
          rw [tryBlock_cons_returned _ _ _ _ _ _ _ h3]
          rfl
        | thrown what =>
          rw [tryBlock_cons_thrown _ _ _ _ _ _ _ _ h3]
          rfl
      have hd : driver (n + 1) m1 m2 m3 m4 w =
          some { world :=
                   catchClause (catchClause w3 o3)
                     (if m4.type = LogType.UNKNOWN
                       then Outcome.thrown ("Unhandled message (" ++ m4.message ++ ")")
                       else Outcome.returned),
                 exitCode := 0,
                 performed := [(warningHandler, m1), (errorHandler, m2), (fatalHandler, m3),
                   (unknownHandler, m4)] } := by
        simp only [driver, hblock, tryBlock_unknown]
        rfl
      exact ⟨_, hd, rfl, rfl, fun h => absurd h c1, fun _ h => absurd h c2,
        fun _ _ => ⟨rfl, w1, w2, w3, o3, h1, h2, h3, rfl⟩⟩

/-- Witness for C12: the first message is UNKNOWN, so only the first and the fourth
dispatch calls are performed. -/
theorem C12_driver_continues_after_block_witness :
    ∃ r, driver 4 ⟨LogType.UNKNOWN, "x"⟩ errorMessage fatalErrorMessage unknownMessage
        World.sample = some r ∧ r.exitCode = 0 ∧
      r.performed.getLast? = some (unknownHandler, unknownMessage) := by
  obtain ⟨r, h1, h2, h3, _⟩ := C12_driver_continues_after_block 4 ⟨LogType.UNKNOWN, "x"⟩
    errorMessage fatalErrorMessage unknownMessage World.sample (by decide)
  exact ⟨r, h1, h2, h3⟩

/-- C13, as stated, fails: the second and third dispatch calls of `main` enter the
chain at `errorHandler` and `fatalHandler`, not at `warningHandler`.  Entered at
`warningHandler`, the ERROR message would leave `logs.txt` untouched, whereas
`main` appends it. -/
theorem C13_entries_differ :
    (main 4 World.sample).map (fun r => r.performed.map Prod.fst) =
        some [warningHandler, errorHandler, fatalHandler, unknownHandler] ∧
      [warningHandler, errorHandler, fatalHandler, unknownHandler] ≠
        [warningHandler, warningHandler, warningHandler, unknownHandler] ∧
      (main 4 World.sample).map (fun r => r.world.files "logs.txt") =
        some (some "Error message\n") ∧
      handle 4 mainHeap warningHandler errorMessage World.sample =
        some (World.sample, Outcome.returned) :=
  ⟨rfl, by decide, rfl, rfl⟩

/-- C13, amended: `main` links the four handlers in the order Fatal, Error, Warning,
Unknown and dispatches each sample message with the handler of its own
classification as entry: the WARNING message at `warningHandler`, the ERROR message
at `errorHandler`, the FATAL_ERROR message at `fatalHandler` and the UNKNOWN message
at `unknownHandler`. -/
theorem C13_driver_entries (fuel : Nat) (w : World) :
    IsChain mainHeap fatalHandler [fatalHandler, errorHandler, warningHandler, unknownHandler] ∧
    (mainHeap fatalHandler).impl = Variant.FatalErrorHandler ∧
    (mainHeap errorHandler).impl = Variant.ErrorHandler "logs.txt" ∧
    (mainHeap warningHandler).impl = Variant.WarningHandler ∧
    (mainHeap unknownHandler).impl = Variant.UnknownHandler ∧
    (main (fuel + 1) w).map (fun r => r.performed) =
      some [(warningHandler, ⟨LogType.WARNING, "Warning message"⟩),
        (errorHandler, ⟨LogType.ERROR, "Error message"⟩),
        (fatalHandler, ⟨LogType.FATAL_ERROR, "Fatal error message"⟩),
        (unknownHandler, ⟨LogType.UNKNOWN, "UNKNOWN"⟩)] := by
  refine ⟨mainHeap_isChain, rfl, rfl, rfl, rfl, ?_⟩
  rw [main_eq]
  rfl

/-- C14: calling `setNext` on `n` with `a` and then with `b` is always defined and
leaves `b` as the only next link of `n`: the store is the one a single
`setNext(b)` gives, the variant of `n` and every other object are unchanged, and a
message for which the `process` of `n` returns false is forwarded to `b`, and (for
`a` other than `b`) not to `a`. -/
theorem C14_setNext_overwrites (heap : Heap) (n a b : Addr) (m : LogMessage) (w : World)
    (fuel : Nat) :
    setNext (setNext heap n (some a)) n (some b) = setNext heap n (some b) ∧
    (setNext (setNext heap n (some a)) n (some b) n).nextHandler = some b ∧
    (setNext (setNext heap n (some a)) n (some b) n).impl = (heap n).impl ∧
    (∀ x, x ≠ n → setNext (setNext heap n (some a)) n (some b) x = heap x) ∧
    (∀ w1, (heap n).impl.process m w = (w1, ProcResult.ret false) →
      handleStep (setNext (setNext heap n (some a)) n (some b)) n m w = Step.forward b w1 ∧
      (a ≠ b →
        handleStep (setNext (setNext heap n (some a)) n (some b)) n m w ≠
          Step.forward a w1) ∧
      handle (fuel + 1) (setNext (setNext heap n (some a)) n (some b)) n m w =
        handle fuel (setNext (setNext heap n (some a)) n (some b)) b m w1 ∧
      handleCalls (fuel + 1) (setNext (setNext heap n (some a)) n (some b)) n m w =
        n :: handleCalls fuel (setNext (setNext heap n (some a)) n (some b)) b m w1) := by
  have hnext : (setNext (setNext heap n (some a)) n (some b) n).nextHandler = some b := by
    simp [setNext]
  have himpl : (setNext (setNext heap n (some a)) n (some b) n).impl = (heap n).impl := by
    simp [setNext]
  refine ⟨?_, hnext, himpl, ?_, ?_⟩
  · funext x
    by_cases hx : x = n <;> simp [setNext, hx]
  · intro x hx
    simp [setNext, hx]
  · intro w1 hp
    have hp2 : (setNext (setNext heap n (some a)) n (some b) n).impl.process m w =
        (w1, ProcResult.ret false) := by
      rw [himpl]
      exact hp
    have hs := handleStep_forward _ n b m w w1 hp2 hnext
    refine ⟨hs, ?_, by simp [handle, hs], by simp [handleCalls, hs]⟩
    intro hab hcontra
    rw [hs] at hcontra
    injection hcontra with h1 _
    exact hab h1.symm

/-- Witness for C14: `warningHandler` of `main` is linked to `fatalHandler` and then
to `unknownHandler`; an UNKNOWN message entering at `warningHandler` is forwarded to
`unknownHandler`. -/
theorem C14_setNext_overwrites_witness :
    handle 2 (setNext (setNext constructed warningHandler (some fatalHandler)) warningHandler
        (some unknownHandler)) warningHandler unknownMessage World.sample =
      handle 1 (setNext (setNext constructed warningHandler (some fatalHandler)) warningHandler
        (some unknownHandler)) unknownHandler unknownMessage World.sample :=
  ((C14_setNext_overwrites constructed warningHandler fatalHandler unknownHandler
    unknownMessage World.sample 1).2.2.2.2 World.sample rfl).2.2.1

/-- C15: on a chain with `n` objects, `handle` ends (by returning or by throwing)
within `n` activations for every message, and the objects whose `process` runs form
an initial part of the chain: at most `n` calls, each object at most once, in chain
order.  In the chain of `main` the bound is 4 from every entry object. -/
theorem C15_bounded_termination (heap : Heap) (self : Addr) (chain : List Addr)
    (m : LogMessage) (w : World) (fuel : Nat) (hc : IsChain heap self chain)
    (hfuel : chain.length ≤ fuel) :
    (∃ w1 o, handle chain.length heap self m w = some (w1, o) ∧
      handle fuel heap self m w = some (w1, o)) ∧
    handleCalls fuel heap self m w = handleCalls chain.length heap self m w ∧
    handleCalls fuel heap self m w <+: chain ∧
    (handleCalls fuel heap self m w).length ≤ chain.length ∧
    (handleCalls fuel heap self m w).Nodup ∧
    (∀ (entry : Addr) (m0 : LogMessage) (w0 : World),
      (∃ r, handle 4 mainHeap entry m0 w0 = some r) ∧
        (handleCalls 4 mainHeap entry m0 w0).length ≤ 4) := by
  obtain ⟨r, hr⟩ := handle_terminates chain m w hc
  have hpre := handleCalls_prefix chain m w fuel hc
  refine ⟨⟨r.1, r.2, hr, handle_of_le _ fuel heap self m w r hr hfuel⟩,
    handleCalls_of_le _ fuel heap self m w r hr hfuel, hpre, hpre.length_le,
    (IsChain.nodup hc).sublist hpre.sublist, ?_⟩
  intro entry m0 w0
  have hlen : ∀ fuel2 heap2 self2 (m2 : LogMessage) (w2 : World),
      (handleCalls fuel2 heap2 self2 m2 w2).length ≤ fuel2 := by
    intro fuel2
    induction fuel2 with
    | zero => intro _ _ _ _; simp [handleCalls]
    | succ k ih =>
      intro heap2 self2 m2 w2
      simp only [handleCalls]
      cases handleStep heap2 self2 m2 w2 with
      | finish w3 o => simp
      | forward nx w3 =>
        have := ih heap2 nx m2 w3
        simp only [List.length_cons]
        omega
  refine ⟨?_, hlen 4 mainHeap entry m0 w0⟩
  have hchain : ∃ l, IsChain mainHeap entry l ∧ l.length ≤ 4 := by
    rcases entry with _ | _ | _ | k
    · exact ⟨[0, 1, 2, 3], by decide, by decide⟩
    · exact ⟨[1, 2, 3], by decide, by decide⟩
    · exact ⟨[2, 3], by decide, by decide⟩
    · exact ⟨[k + 3], ⟨rfl, rfl⟩, by simp⟩
  obtain ⟨l, hl, hl4⟩ := hchain
  obtain ⟨r0, hr0⟩ := handle_terminates l m0 w0 hl
  exact ⟨r0, handle_of_le _ 4 mainHeap entry m0 w0 r0 hr0 hl4⟩

/-- Witness for C15: an UNKNOWN message dispatched at the head of the chain of
`main` runs `process` on all four objects, in chain order, and ends. -/
theorem C15_bounded_termination_witness :
    (∃ w1 o, handle 4 mainHeap fatalHandler unknownMessage World.sample = some (w1, o) ∧
      handle 7 mainHeap fatalHandler unknownMessage World.sample = some (w1, o)) ∧
    handleCalls 7 mainHeap fatalHandler unknownMessage World.sample <+:
      [fatalHandler, errorHandler, warningHandler, unknownHandler] :=
  ⟨(C15_bounded_termination mainHeap fatalHandler
      [fatalHandler, errorHandler, warningHandler, unknownHandler] unknownMessage
      World.sample 7 mainHeap_isChain (by decide)).1,
   (C15_bounded_termination mainHeap fatalHandler
      [fatalHandler, errorHandler, warningHandler, unknownHandler] unknownMessage
      World.sample 7 mainHeap_isChain (by decide)).2.2.1⟩

/-- C16: when the entry object reaches an object that lies on a cycle of
`nextHandler` pointers and no object reachable from the entry matches the message's
classification, `handle` neither returns nor throws: with any fuel the bound is
reached, `process` runs once per unit of fuel, and at every object on the way the
activation forwards to a next object with the world unchanged. -/
theorem C16_cyclic_never_ends (heap : Heap) (self c : Addr) (i j : Nat) (m : LogMessage)
    (w : World) (hreach : nextIter heap i self = some c) (hj : 0 < j)
    (hcycle : nextIter heap j c = some c)
    (hno : ∀ k b, nextIter heap k self = some b → (heap b).impl.responsibility ≠ m.type) :
    (∀ fuel, handle fuel heap self m w = none) ∧
    (∀ fuel, (handleCalls fuel heap self m w).length = fuel) ∧
    (∀ k b, nextIter heap k self = some b →
      ∃ next, (heap b).nextHandler = some next ∧
        handleStep heap b m w = Step.forward next w ∧
        nextIter heap (k + 1) self = some next) := by
  have hpath := nextIter_endless heap self c i j hreach hj hcycle
  refine ⟨fun fuel => (handle_endless heap m w fuel self hpath hno).1,
    fun fuel => (handle_endless heap m w fuel self hpath hno).2, ?_⟩
  intro k b hb
  obtain ⟨b2, hb2⟩ := hpath (k + 1)
  have hadd := nextIter_add heap k 1 self
  rw [hb2, hb] at hadd
  cases hn : (heap b).nextHandler with
  | none => simp [nextIter, hn] at hadd
  | some next =>
    have hnx : b2 = next := by simpa [nextIter, hn] using hadd
    have hp := process_of_ne (heap b).impl m w (hno k b hb)
    exact ⟨next, rfl, handleStep_forward heap b next m w w hp hn, by rw [hb2, hnx]⟩

/-- Witness for C16: a Warning handler whose next handler is itself, given an ERROR
message. -/
theorem C16_cyclic_never_ends_witness :
    handle 1000 (fun _ => { impl := Variant.WarningHandler, nextHandler := some 0 }) 0
      errorMessage World.sample = none :=
  (C16_cyclic_never_ends (fun _ => { impl := Variant.WarningHandler, nextHandler := some 0 })
    0 0 0 1 errorMessage World.sample rfl (by decide) rfl
    (fun _ _ _ h => LogType.noConfusion h)).1 1000

/-- On a match, the effect and result of `process` are the action that the
specification gives for the variant. -/
theorem process_eq_referenceAction (v : Variant) (m : LogMessage) (w : World)
    (h : v.responsibility = m.type) :
    ((v.process m w).1, (v.process m w).2.toOutcome) = referenceAction v m.message w := by
  cases v with
  | WarningHandler => rw [process_warning m w h.symm]; rfl
  | ErrorHandler p =>
    rw [process_error p m w h.symm]
    simp only [referenceAction, World.appendLine, ProcResult.toOutcome]
    cases w.files p <;> rfl
  | FatalErrorHandler => rw [process_fatal m w h.symm]; rfl
  | UnknownHandler => rw [process_unknown m w h.symm]; rfl

theorem find?_first_match (P : Addr → Bool) (pre post : List Addr) (k : Addr)
    (hpre : ∀ j ∈ pre, P j = false) (hk : P k = true) :
    (pre ++ k :: post).find? P = some k := by
  induction pre with
  | nil => simp [List.find?, hk]
  | cons a pre ih =>
    have ha : P a = false := hpre a (List.mem_cons_self _ _)
    simp only [List.cons_append, List.find?, ha]
    exact ih (fun j hj => hpre j (List.mem_cons_of_mem _ hj))

/-- C17: on every chain, whatever variants it holds and however often, `handle`
from the head equals the reference dispatch: the action of the first object in
chain order whose variant matches the classification, and nothing when there is
none.  At most one object whose variant matches runs `process`. -/
theorem C17_refines_reference (heap : Heap) (self : Addr) (chain : List Addr)
    (m : LogMessage) (w : World) (fuel : Nat) (hc : IsChain heap self chain)
    (hfuel : chain.length ≤ fuel) :
    handle fuel heap self m w = some (referenceDispatch heap chain m w) ∧
    ((handleCalls fuel heap self m w).filter
      (fun a => decide ((heap a).impl.responsibility = m.type))).length ≤ 1 := by
  by_cases hex : ∃ k, k ∈ chain ∧ (heap k).impl.responsibility = m.type
  · obtain ⟨k, hk, hm⟩ := hex
    obtain ⟨pre, k1, post, hsplit, hk1, hpre⟩ :=
      exists_first_match (fun j => (heap j).impl.responsibility = m.type) chain k hk hm
    subst hsplit
    have hlen : pre.length + 1 ≤ fuel := by
      simp only [List.length_append, List.length_cons] at hfuel
      omega
    have hmain := handle_first_match_le pre post m w fuel hc hpre hk1 hlen
    have hfind : (pre ++ k1 :: post).find?
        (fun a => decide ((heap a).impl.responsibility = m.type)) = some k1 :=
      find?_first_match _ pre post k1 (fun j hj => by simpa using hpre j hj) (by simpa using hk1)
    constructor
    · rw [hmain.1, process_eq_referenceAction _ m w hk1]
      simp only [referenceDispatch, hfind]
    · rw [hmain.2, List.filter_append]
      have hnil : pre.filter (fun a => decide ((heap a).impl.responsibility = m.type)) = [] := by
        rw [List.filter_eq_nil_iff]
        intro j hj
        simpa using hpre j hj
      rw [hnil]
      simp [List.filter, hk1]
  · have hno : ∀ j ∈ chain, (heap j).impl.responsibility ≠ m.type :=
      fun j hj h => hex ⟨j, hj, h⟩
    have hmain := handle_unmatched_le chain m w fuel hc hno hfuel
    have hfind : chain.find?
        (fun a => decide ((heap a).impl.responsibility = m.type)) = none := by
      rw [List.find?_eq_none]
      intro j hj
      simpa using hno j hj
    constructor
    · rw [hmain.1]
      simp only [referenceDispatch, hfind]
    · rw [hmain.2]
      have hnil : chain.filter (fun a => decide ((heap a).impl.responsibility = m.type)) = [] := by
        rw [List.filter_eq_nil_iff]
        intro j hj
        simpa using hno j hj
      rw [hnil]
      simp

/-- Witness for C17: a chain of two Warning handlers writes a WARNING message to the
standard output once, at the first of them. -/
theorem C17_refines_reference_witness :
    (handle 2
        (fun a => match a with
          | 0 => { impl := Variant.WarningHandler, nextHandler := some 1 }
          | _ => { impl := Variant.WarningHandler, nextHandler := none })
        0 warningMessage World.sample).map (fun r => (r.1.stdout, r.2)) =
      some ("Warning message\n", Outcome.returned) := by
  rw [(C17_refines_reference
    (fun a => match a with
      | 0 => { impl := Variant.WarningHandler, nextHandler := some 1 }
      | _ => { impl := Variant.WarningHandler, nextHandler := none })
    0 [0, 1] warningMessage World.sample 2 (by decide) (by decide)).1]
  rfl

/-- C18: the outcome of `handle` depends only on the objects reachable from the
entry object: two stores that agree on them give the same outcome and call trace,
every object whose `process` runs is reachable from the entry, and the objects
that precede the entry in a chain are never consulted.  In the chain of `main`, an
ERROR or FATAL_ERROR message entering at `warningHandler` is passed to
`unknownHandler` and dropped: `handle` returns with the world unchanged. -/
theorem C18_depends_on_reachable (heap : Heap) (self : Addr) (m : LogMessage) (w : World)
    (fuel : Nat) :
    (∀ heap2 : Heap, (∀ k b, nextIter heap k self = some b → heap2 b = heap b) →
      handle fuel heap2 self m w = handle fuel heap self m w ∧
        handleCalls fuel heap2 self m w = handleCalls fuel heap self m w) ∧
    (∀ b ∈ handleCalls fuel heap self m w, ∃ k, nextIter heap k self = some b) ∧
    (∀ head pre post, IsChain heap head (pre ++ self :: post) →
      ∀ j ∈ pre, j ∉ handleCalls fuel heap self m w) ∧
    (∀ (t : String) (w0 : World) (n : Nat),
      handle (n + 2) mainHeap warningHandler ⟨LogType.ERROR, t⟩ w0 =
          some (w0, Outcome.returned) ∧
        handle (n + 2) mainHeap warningHandler ⟨LogType.FATAL_ERROR, t⟩ w0 =
          some (w0, Outcome.returned) ∧
        handleCalls (n + 2) mainHeap warningHandler ⟨LogType.ERROR, t⟩ w0 =
          [warningHandler, unknownHandler] ∧
        handleCalls (n + 2) mainHeap warningHandler ⟨LogType.FATAL_ERROR, t⟩ w0 =
          [warningHandler, unknownHandler]) := by
  refine ⟨fun heap2 hagree => handle_congr_reachable heap heap2 m fuel self w hagree,
    fun b hb => handleCalls_reachable heap m fuel self w b hb, ?_,
    fun _ _ _ => ⟨rfl, rfl, rfl, rfl⟩⟩
  intro head pre post hc j hj hmem
  have hsuf := IsChain.suffix pre post hc
  have hpre := handleCalls_prefix (self :: post) m w fuel hsuf
  have hin : j ∈ self :: post := hpre.subset hmem
  exact (List.nodup_append.mp (IsChain.nodup hc)).2.2 hj hin

/-- Witness for C18: unlinking `fatalHandler` from the chain of `main` does not
change a dispatch that enters at `warningHandler`. -/
theorem C18_depends_on_reachable_witness :
    handle 4 (setNext mainHeap fatalHandler none) warningHandler unknownMessage World.sample =
      handle 4 mainHeap warningHandler unknownMessage World.sample :=
  ((C18_depends_on_reachable mainHeap warningHandler unknownMessage World.sample 4).1
    (setNext mainHeap fatalHandler none)
    (fun k b h => by
      rcases k with _ | _ | k
      · cases h
        rfl
      · cases h
        rfl
      · cases h)).1

end ChainOfResponsibility
